import Mathlib

/-!
# ocs2: controller interface, regression fixtures, iteration controller, cost wrapper

Shallow embedding of the parts of the repository the claims are about.
Scalars (`double`) are embedded as rationals; Eigen vectors are lists of
scalars and Eigen matrices are lists of rows.
-/

namespace ocs2

/-! ## Controller (ocs2_core/control/Controller.h)

`Controller<STATE_DIM, INPUT_DIM>` declares only pure virtual methods; the
concrete controllers are not part of the sources at hand, so their data and
methods are modelled from the specification (sections 3 and 6) and from the
documentation comments of the declarations.
-/

/-- Modelled from the spec: the discriminant of the controller's representational
variant (`ControllerType.h` is missing); the spec names a feedforward-array and a
linear-feedback variant. -/
inductive ControllerType where
  | FEEDFORWARD
  | LINEAR
  deriving DecidableEq, Repr

/-- Modelled from the spec: the data owned by a concrete controller (section 3):
the discriminant, the time grid, and one feedback gain matrix (`INPUT_DIM` rows of
`STATE_DIM` entries) and one feedforward bias vector (`INPUT_DIM` entries) per node
of the time grid. The feedforward-array variant keeps its gain container empty. -/
structure Controller (STATE_DIM INPUT_DIM : Nat) where
  type : ControllerType
  timeGrid : List ℚ
  gain : List (List (List ℚ))
  bias : List (List ℚ)
  deriving DecidableEq, Repr

/-- Convex combination `a * p + (1 - a) * q` of two vectors, entry by entry. -/
def lerpVector (a : ℚ) (p q : List ℚ) : List ℚ :=
  List.zipWith (fun pi qi => a * pi + (1 - a) * qi) p q

/-- Convex combination of two matrices, row by row. -/
def lerpMatrix (a : ℚ) (p q : List (List ℚ)) : List (List ℚ) :=
  List.zipWith (lerpVector a) p q

/-- Modelled from the spec: the interpolation policy of a time-indexed container
(section 6: exact at the samples, policy-defined between them). The policy modelled
here holds the first value before the grid, the last value after it, and
interpolates linearly between two neighbouring samples. -/
def interpolate {α : Type} (zero : α) (lerp : ℚ → α → α → α) (t : ℚ) :
    List ℚ → List α → α
  | [], _ => zero
  | _ :: _, [] => zero
  | [_], v0 :: _ => v0
  | t0 :: t1 :: ts, v0 :: vs =>
    if t ≤ t0 then v0
    else match vs with
      | [] => v0
      | v1 :: _ =>
        if t < t1 then lerp ((t1 - t) / (t1 - t0)) v0 v1
        else interpolate zero lerp t (t1 :: ts) vs

/-- Inner product of a matrix row with the state. -/
def dot (row x : List ℚ) : ℚ :=
  (List.zipWith (fun a b => a * b) row x).sum

namespace Controller

variable {STATE_DIM INPUT_DIM : Nat}

/-- Modelled from the spec: the feedforward bias of the policy at time `t`. -/
def biasAt (c : Controller STATE_DIM INPUT_DIM) (t : ℚ) : List ℚ :=
  interpolate [] lerpVector t c.timeGrid c.bias

/-- Modelled from the spec: the feedback gain of the policy at time `t`. -/
def gainAt (c : Controller STATE_DIM INPUT_DIM) (t : ℚ) : List (List ℚ) :=
  interpolate [] lerpMatrix t c.timeGrid c.gain

/-- Modelled from the spec: `computeInput(t, x)`, the control command at time `t`
and state `x`: the feedforward bias for the feedforward-array variant, bias plus
gain times state for the linear-feedback variant. -/
def computeInput (c : Controller STATE_DIM INPUT_DIM) (t : ℚ) (x : List ℚ) : List ℚ :=
  match c.type with
  | ControllerType.FEEDFORWARD => c.biasAt t
  | ControllerType.LINEAR =>
    List.zipWith (fun b k => b + k) (c.biasAt t) ((c.gainAt t).map (fun row => dot row x))

/-- Modelled from the spec: `flatten(time, flatArray)`, the flat array of the policy
at the query time (section 6): the rows of the gain matrix one after the other, then
the feedforward entries; the feedforward-array variant has feedforward entries only. -/
def flatten (c : Controller STATE_DIM INPUT_DIM) (time : ℚ) : List ℚ :=
  match c.type with
  | ControllerType.FEEDFORWARD => c.biasAt time
  | ControllerType.LINEAR => (c.gainAt time).flatten ++ c.biasAt time

/-- Cuts a flat array into `n` consecutive rows of `m` entries. -/
def toRows (m : Nat) : Nat → List ℚ → List (List ℚ)
  | 0, _ => []
  | n + 1, a => a.take m :: toRows m n (a.drop m)

/-- The gain matrix stored in one flat array of the linear-feedback variant. -/
def unFlattenGain (STATE_DIM INPUT_DIM : Nat) (flatArray : List ℚ) : List (List ℚ) :=
  toRows STATE_DIM INPUT_DIM flatArray

/-- The feedforward entries stored in one flat array. -/
def unFlattenBias (STATE_DIM INPUT_DIM : Nat) (type : ControllerType) (flatArray : List ℚ) :
    List ℚ :=
  match type with
  | ControllerType.FEEDFORWARD => flatArray
  | ControllerType.LINEAR => (flatArray.drop (INPUT_DIM * STATE_DIM)).take INPUT_DIM

/-- Modelled from the spec: `unFlatten(timeArray, flatArray2)`, which restores the
controller from one sequence of times and one flat array per time sample (section 6).
The method returns nothing and keeps the variant of the controller it is called on. -/
def unFlatten (c : Controller STATE_DIM INPUT_DIM) (timeArray : List ℚ)
    (flatArray2 : List (List ℚ)) : Controller STATE_DIM INPUT_DIM :=
  { type := c.type
    timeGrid := timeArray
    gain := match c.type with
      | ControllerType.FEEDFORWARD => []
      | ControllerType.LINEAR => flatArray2.map (unFlattenGain STATE_DIM INPUT_DIM)
    bias := flatArray2.map (unFlattenBias STATE_DIM INPUT_DIM c.type) }

/-- Modelled from the spec: `clear()`, which "clears and reverts back to an empty
controller" (documentation of the declaration). -/
def clear (c : Controller STATE_DIM INPUT_DIM) : Controller STATE_DIM INPUT_DIM :=
  { type := c.type, timeGrid := [], gain := [], bias := [] }

/-- Modelled from the spec: `setZero()`, which "fills all the data containers with
zeros" and changes neither a size nor the time array (documentation of the
declaration). -/
def setZero (c : Controller STATE_DIM INPUT_DIM) : Controller STATE_DIM INPUT_DIM :=
  { type := c.type
    timeGrid := c.timeGrid
    gain := c.gain.map (fun K => K.map (fun row => row.map (fun _ => 0)))
    bias := c.bias.map (fun b => b.map (fun _ => 0)) }

/-- Modelled from the spec: `empty()`, true if the controller "contains no
information" (documentation of the declaration): no time sample and no data. -/
def empty (c : Controller STATE_DIM INPUT_DIM) : Bool :=
  c.timeGrid.isEmpty && c.gain.isEmpty && c.bias.isEmpty

/-- Modelled from the spec: the invariant of a controller (section 3): the time grid is strictly
increasing and carries one bias vector of `INPUT_DIM` entries per node; the
linear-feedback variant also carries one `INPUT_DIM x STATE_DIM` gain per node. -/
def WellFormed (c : Controller STATE_DIM INPUT_DIM) : Prop :=
  c.timeGrid.Pairwise (fun a b => a < b) ∧
  c.bias.length = c.timeGrid.length ∧
  (∀ b ∈ c.bias, b.length = INPUT_DIM) ∧
  (c.type = ControllerType.FEEDFORWARD → c.gain = []) ∧
  (c.type = ControllerType.LINEAR →
    c.gain.length = c.timeGrid.length ∧
    ∀ K ∈ c.gain, K.length = INPUT_DIM ∧ ∀ row ∈ K, row.length = STATE_DIM)

instance (c : Controller STATE_DIM INPUT_DIM) : Decidable c.WellFormed := by
  unfold WellFormed
  infer_instance

end Controller

/-- The methods declared by the `Controller` interface, with their arguments. -/
inductive Method where
  | computeInput (t : ℚ) (x : List ℚ)
  | flatten (time : ℚ)
  | unFlatten (timeArray : List ℚ) (flatArray2 : List (List ℚ))
  | getType
  | clear
  | setZero
  | empty
  deriving DecidableEq, Repr

/-- Modelled from the spec: the precondition of a call. `unFlatten` consumes one or
more flat arrays, one per time sample (section 6); the other methods have no
precondition. -/
def Method.admissible : Method → Prop
  | Method.unFlatten _ flatArray2 => flatArray2 ≠ []
  | _ => True

instance (m : Method) : Decidable m.admissible := by
  cases m <;> unfold Method.admissible <;> infer_instance

/-- Modelled from the spec: the controller after a call of one method of the
interface. `unFlatten`, `clear` and `setZero` replace its data; `flatten`, `getType`
and `empty` are declared const. `computeInput` is declared non-const and has no
implementation at hand; its documentation (it computes the control command and
returns the input) and the spec give it no effect on the data of the controller, so
the call is modelled as leaving the controller as it is. -/
def Controller.call {STATE_DIM INPUT_DIM : Nat} (c : Controller STATE_DIM INPUT_DIM) :
    Method → Controller STATE_DIM INPUT_DIM
  | Method.unFlatten timeArray flatArray2 => c.unFlatten timeArray flatArray2
  | Method.clear => c.clear
  | Method.setZero => c.setZero
  | Method.computeInput _ _ => c
  | Method.flatten _ => c
  | Method.getType => c
  | Method.empty => c

/-! ## Settings, performance index, line search and iteration controller

The solver itself is not part of the sources at hand (the regression tests only call
it); the definitions of this section are modelled from the specification, sections
3, 4.4 and 4.5.
-/

/-- Modelled from the spec: the configuration record of a run (section 3). -/
structure Settings where
  absTolODE : ℚ
  relTolODE : ℚ
  maxNumStepsPerSecond : Nat
  nThreads : Nat
  maxNumIterations : Nat
  lsStepsizeGreedy : Bool
  noStateConstraints : Bool
  minLearningRate : ℚ
  minRelCost : ℚ
  minRelConstraint1ISE : ℚ
  checkNumericalStability : Bool
  displayInfo : Bool
  displayShortSummary : Bool
  deriving DecidableEq, Repr

/-- Modelled from the spec: total cost plus the integral-squared-error of each
constraint category (section 3). -/
structure PerformanceIndex where
  totalCost : ℚ
  constraint1ISE : ℚ
  constraint2ISE : ℚ
  deriving DecidableEq, Repr

/-- Modelled from the spec: a controller together with the performance index of its
rollout, the pair a run returns (section 6). -/
structure Policy (C : Type) where
  controller : C
  performance : PerformanceIndex
  deriving DecidableEq, Repr

/-- Modelled from the spec: the step sizes of the line search (section 4.4): starting
at `α`, halved as long as the step size is not below `minLearningRate`; `n` bounds the
number of step sizes. -/
def stepSizes (minLearningRate : ℚ) : Nat → ℚ → List ℚ
  | 0, _ => []
  | n + 1, α =>
    if α < minLearningRate then [] else α :: stepSizes minLearningRate n (α / 2)

/-- A number of step sizes that the halving from 1.0 down to a positive
`minLearningRate` never exceeds. -/
def maxNumStepSizes (minLearningRate : ℚ) : Nat :=
  ⌈1 / minLearningRate⌉₊ + 1

/-- Modelled from the spec: the acceptance test of the greedy line search (section
4.4): the candidate produces a cost decrease, and the decrease exceeds the
numerical-noise threshold. For a threshold that is not negative the second condition
implies the first. -/
def accepts (noiseThreshold : ℚ) (baseline candidate : PerformanceIndex) : Bool :=
  decide (candidate.totalCost < baseline.totalCost)
    && decide (noiseThreshold < baseline.totalCost - candidate.totalCost)

/-- The candidate of lower total cost; the earlier one on a tie. -/
def better {C : Type} (p q : Policy C) : Policy C :=
  if q.performance.totalCost < p.performance.totalCost then q else p

/-- The best of a list of candidates. -/
def best {C : Type} : List (Policy C) → Option (Policy C)
  | [] => none
  | p :: ps => some (ps.foldl better p)

/-- Modelled from the spec: the line search of the forward pass (section 4.4). The
candidates are the rollouts for the step sizes 1, 1/2, 1/4, ... down to
`minLearningRate`. The greedy policy accepts the first candidate that passes the
acceptance test, and `none` is the rejection of all candidates. The exhaustive policy
evaluates the whole candidate set and keeps the best; the spec states no acceptance
test for it. -/
def lineSearch {C : Type} (s : Settings) (noiseThreshold : ℚ) (baseline : PerformanceIndex)
    (rollout : ℚ → Policy C) : Option (Policy C) :=
  let candidates := (stepSizes s.minLearningRate (maxNumStepSizes s.minLearningRate) 1).map rollout
  if s.lsStepsizeGreedy then
    (candidates.filter (fun p => accepts noiseThreshold baseline p.performance)).head?
  else best candidates

/-- Modelled from the spec: the states of the iteration controller (section 4.5). -/
inductive Phase where
  | Initializing
  | BuildingModel
  | BackwardPass
  | ForwardPass
  | Converged
  | Failed
  deriving DecidableEq, Repr

/-- Modelled from the spec: what the stages of one outer iteration report to the
iteration controller (sections 4.2 to 4.4):
whether the model builder succeeded (no per-node derivative failure), whether the
backward pass succeeded (no RiccatiDivergence), and the rollout of the candidate
controller for each step size. -/
structure StageReport (C : Type) where
  modelOk : Bool
  riccatiOk : Bool
  rollout : ℚ → Policy C

/-- Modelled from the spec: the state of the iteration controller: its phase, the
number of forward passes done, the last accepted controller with its performance
index, and the performance index of the previous iteration. -/
structure IterationState (C : Type) where
  phase : Phase
  iteration : Nat
  accepted : Policy C
  previous : PerformanceIndex
  deriving DecidableEq, Repr

/-- Modelled from the spec: relative cost improvement of an iteration. -/
def relativeImprovement (previous next : ℚ) : ℚ :=
  (previous - next) / |previous|

/-- Modelled from the spec: one transition of the iteration controller (section 4.5).
Initializing goes to BuildingModel; BuildingModel goes to BackwardPass on success and
to Failed otherwise; BackwardPass goes to ForwardPass on success and to Failed
otherwise. In ForwardPass, when the iteration cap is reached (the iteration count is
not below `maxNumIterations`), no candidate is rolled out and the controller goes to
Converged with the last accepted controller and performance index, so that
`maxNumIterations = 0` returns the controller of the initial operating trajectory and
its baseline cost (section 8). Otherwise ForwardPass runs the line search, keeps the
candidate it returns, and goes back to BuildingModel if a candidate was returned, the
relative cost improvement is at least `minRelCost` and the iteration count, the pass
just done included, is below `maxNumIterations`, and to Converged otherwise. Converged
and Failed are terminal. -/
def step {C : Type} (s : Settings) (noiseThreshold : ℚ) (r : StageReport C)
    (st : IterationState C) : IterationState C :=
  match st.phase with
  | Phase.Initializing => { st with phase := Phase.BuildingModel }
  | Phase.BuildingModel =>
    if r.modelOk then { st with phase := Phase.BackwardPass }
    else { st with phase := Phase.Failed }
  | Phase.BackwardPass =>
    if r.riccatiOk then { st with phase := Phase.ForwardPass }
    else { st with phase := Phase.Failed }
  | Phase.ForwardPass =>
    if s.maxNumIterations ≤ st.iteration then { st with phase := Phase.Converged }
    else
      let found := lineSearch s noiseThreshold st.accepted.performance r.rollout
      let next := found.getD st.accepted
      let improvement :=
        relativeImprovement st.accepted.performance.totalCost next.performance.totalCost
      let continues : Bool :=
        found.isSome && decide (s.minRelCost ≤ improvement)
          && decide (st.iteration + 1 < s.maxNumIterations)
      { phase := if continues then Phase.BuildingModel else Phase.Converged
        iteration := st.iteration + 1
        accepted := next
        previous := st.accepted.performance }
  | Phase.Converged => st
  | Phase.Failed => st

/-- Modelled from the spec: the state the iteration controller starts in: the controller of the initial
operating trajectory and its baseline cost. -/
def initialState {C : Type} (init : Policy C) : IterationState C :=
  { phase := Phase.Initializing, iteration := 0, accepted := init, previous := init.performance }

/-- The states the iteration controller goes through in `n` transitions; the stages
of outer iteration `i` report `reports i`. -/
def trajectory {C : Type} (s : Settings) (noiseThreshold : ℚ) (reports : Nat → StageReport C) :
    Nat → IterationState C → List (IterationState C)
  | 0, st => [st]
  | n + 1, st => st :: trajectory s noiseThreshold reports n
      (step s noiseThreshold (reports st.iteration) st)

/-- The state of the iteration controller after `n` transitions. -/
def runSteps {C : Type} (s : Settings) (noiseThreshold : ℚ) (reports : Nat → StageReport C) :
    Nat → IterationState C → IterationState C
  | 0, st => st
  | n + 1, st => runSteps s noiseThreshold reports n
      (step s noiseThreshold (reports st.iteration) st)

/-- Number of transitions after which every run has reached a terminal state: one to
leave Initializing and three for each outer iteration. -/
def maxNumTransitions (s : Settings) : Nat :=
  1 + 3 * max s.maxNumIterations 1

/-- Modelled from the spec: a run of the iteration controller from the initial
operating trajectory to a terminal state. -/
def run {C : Type} (s : Settings) (noiseThreshold : ℚ) (reports : Nat → StageReport C)
    (init : Policy C) : IterationState C :=
  runSteps s noiseThreshold reports (maxNumTransitions s) (initialState init)

/-- Converged and Failed are the terminal states. -/
def IterationState.terminal {C : Type} (st : IterationState C) : Bool :=
  decide (st.phase = Phase.Converged) || decide (st.phase = Phase.Failed)

/-- An upper bound on the number of transitions that are left before a terminal state
is reached. -/
def remainingTransitions {C : Type} (s : Settings) (st : IterationState C) : Nat :=
  match st.phase with
  | Phase.Initializing => 3 * (max s.maxNumIterations 1 - st.iteration) + 1
  | Phase.BuildingModel => 3 * (max s.maxNumIterations 1 - st.iteration)
  | Phase.BackwardPass => 3 * (max s.maxNumIterations 1 - st.iteration) - 1
  | Phase.ForwardPass => 3 * (max s.maxNumIterations 1 - st.iteration) - 2
  | Phase.Converged => 0
  | Phase.Failed => 0

/-! ## The EXP0 regression tests (exp0_slq_test.cpp, exp0_ilqr_test.cpp) -/

/-- The method `std::vector::push_back`. -/
def push_back (v : List ℚ) (x : ℚ) : List ℚ :=
  v ++ [x]

/-- The assertion `ASSERT_LT(fabs(value - expected), bound)` of the tests. -/
def ASSERT_LT_fabs (value expected bound : ℚ) : Bool :=
  decide (|value - expected| < bound)

namespace exp0_slq_test

def STATE_DIM : Nat := 2

def INPUT_DIM : Nat := 1

/-- The assignments to `slqSettings.ddpSettings_`; the fields the test does not
assign keep the value of the default-constructed settings. -/
def ddpSettings (defaults : Settings) : Settings :=
  { defaults with
    displayInfo := true
    displayShortSummary := true
    absTolODE := 1 / 10 ^ 10
    relTolODE := 1 / 10 ^ 7
    maxNumStepsPerSecond := 10000
    nThreads := 3
    maxNumIterations := 30
    lsStepsizeGreedy := true
    noStateConstraints := true
    minLearningRate := 1 / 10000
    minRelCost := 5 / 10000
    checkNumericalStability := false }

def switchingTimes : List ℚ := [1897 / 10000]

def startTime : ℚ := 0

def finalTime : ℚ := 2

def partitioningTimes : List ℚ :=
  push_back (push_back (push_back [] startTime) (switchingTimes.getD 0 0)) finalTime

def initState : List ℚ := [0, 2]

def expectedCost : ℚ := 97667 / 10000

end exp0_slq_test

namespace exp0_ilqr_test

def STATE_DIM : Nat := 2

def INPUT_DIM : Nat := 1

/-- The assignments to `ilqrSettings.ddpSettings_`; the fields the test does not
assign keep the value of the default-constructed settings. -/
def ddpSettings (defaults : Settings) : Settings :=
  { defaults with
    displayInfo := false
    displayShortSummary := true
    absTolODE := 1 / 10 ^ 10
    relTolODE := 1 / 10 ^ 7
    maxNumStepsPerSecond := 1000000
    nThreads := 3
    maxNumIterations := 30
    lsStepsizeGreedy := true
    noStateConstraints := true
    minLearningRate := 1 / 10000
    minRelCost := 5 / 10000
    checkNumericalStability := false }

def switchingTimes : List ℚ := [1897 / 10000]

def subsystemsSequence : List Nat := [0, 1]

def startTime : ℚ := 0

def finalTime : ℚ := 2

def partitioningTimes : List ℚ :=
  push_back (push_back (push_back [] startTime) (switchingTimes.getD 0 0)) finalTime

def initState : List ℚ := [0, 2]

def expectedCost : ℚ := 97667 / 10000

end exp0_ilqr_test

/-! ## CostWrapper (ocs2_qp_solver/wrappers/CostWrapper.h)

Objects behind a `std::unique_ptr` live in a heap and are referred to by their
address; a method that changes an object returns the heap after the call, and a call
through a null or dangling pointer has no result.
-/

namespace qp_solver

/-- The interface of `ocs2::CostFunctionBase<STATE_DIM, INPUT_DIM>` that the wrapper
uses (`CostFunctionBase.h` is missing, so the interface is a parameter): `S` is the
type of the states of cost-function objects, `clone` gives the state of the object that
`clone()` creates, `setCurrentStateAndControl` the state after the call, and each
getter the value it writes to its output argument. -/
structure CostFunctionBase (S : Type) where
  clone : S → S
  setCurrentStateAndControl : S → ℚ → List ℚ → List ℚ → S
  getIntermediateCost : S → ℚ
  getIntermediateCostDerivativeState : S → List ℚ
  getIntermediateCostDerivativeInput : S → List ℚ
  getIntermediateCostSecondDerivativeState : S → List (List ℚ)
  getIntermediateCostSecondDerivativeInput : S → List (List ℚ)
  getIntermediateCostDerivativeInputState : S → List (List ℚ)
  getTerminalCost : S → ℚ
  getTerminalCostDerivativeState : S → List ℚ
  getTerminalCostSecondDerivativeState : S → List (List ℚ)

/-- An object of type `CostHandle<STATE_DIM, INPUT_DIM>`: its template arguments and
its only data member `hp_`, the address of the cost function it owns. -/
structure CostHandle where
  STATE_DIM : Nat
  INPUT_DIM : Nat
  hp_ : Nat
  deriving DecidableEq, Repr

/-- The heap: the cost-function objects and the handle objects, each addressed by its
position. An allocation appends an object. -/
structure Heap (S : Type) where
  costFunctions : List S
  handles : List CostHandle

/-- An object of type `CostWrapper`: its only data member `p_`, the address of its
handle, or `none` for the null pointer a moved-from wrapper holds. -/
structure CostWrapper where
  p_ : Option Nat
  deriving DecidableEq, Repr

/-- The constructor
`explicit CostHandle(const CostFunctionBase& costFunction) : hp_(costFunction.clone())` inside `new CostHandle<STATE_DIM, INPUT_DIM>(costFunction)`: allocates the clone of the
cost function at address `costFunction` and a handle that points to it; returns the
heap and the address of the new handle. -/
def CostHandle.new {S : Type} (F : CostFunctionBase S) (STATE_DIM INPUT_DIM : Nat)
    (h : Heap S) (costFunction : Nat) : Option (Heap S × Nat) :=
  match h.costFunctions[costFunction]? with
  | none => none
  | some s =>
    some ({ costFunctions := h.costFunctions ++ [F.clone s]
            handles := h.handles ++ [⟨STATE_DIM, INPUT_DIM, h.costFunctions.length⟩] },
          h.handles.length)

/-- The method `CostHandle::clone()`: `new CostHandle(*hp_)` for the handle at address
`p`. -/
def CostHandle.clone {S : Type} (F : CostFunctionBase S) (h : Heap S) (p : Nat) :
    Option (Heap S × Nat) :=
  match h.handles[p]? with
  | none => none
  | some handle => CostHandle.new F handle.STATE_DIM handle.INPUT_DIM h handle.hp_

/-- The templated constructor `CostWrapper(const CostFunctionBase<STATE_DIM, INPUT_DIM>&)`:
`p_(new CostHandle<STATE_DIM, INPUT_DIM>(costFunction))`. -/
def CostWrapper.new {S : Type} (F : CostFunctionBase S) (STATE_DIM INPUT_DIM : Nat)
    (h : Heap S) (costFunction : Nat) : Option (Heap S × CostWrapper) :=
  match CostHandle.new F STATE_DIM INPUT_DIM h costFunction with
  | none => none
  | some (h1, p) => some (h1, ⟨some p⟩)

/-- The copy constructor `CostWrapper(const CostWrapper& other) : p_(other.p_->clone())`. -/
def CostWrapper.copy {S : Type} (F : CostFunctionBase S) (h : Heap S) (other : CostWrapper) :
    Option (Heap S × CostWrapper) :=
  match other.p_ with
  | none => none
  | some p =>
    match CostHandle.clone F h p with
    | none => none
    | some (h1, q) => some (h1, ⟨some q⟩)

/-- The method `CostHandle::setCurrentStateAndControl(t, x, u)` on the handle at address `p`:
`hp_->setCurrentStateAndControl(t, x, u)`. -/
def CostHandle.setCurrentStateAndControl {S : Type} (F : CostFunctionBase S) (h : Heap S)
    (p : Nat) (t : ℚ) (x u : List ℚ) : Option (Heap S) :=
  match h.handles[p]? with
  | none => none
  | some handle =>
    match h.costFunctions[handle.hp_]? with
    | none => none
    | some s =>
      some { h with
        costFunctions := h.costFunctions.set handle.hp_ (F.setCurrentStateAndControl s t x u) }

/-- The method `CostHandle::setCurrentStateAndControl(t, x)` on the handle at address `p`:
`hp_->setCurrentStateAndControl(t, x, input_vector_t::Zero())`. -/
def CostHandle.setCurrentStateAndControl₂ {S : Type} (F : CostFunctionBase S) (h : Heap S)
    (p : Nat) (t : ℚ) (x : List ℚ) : Option (Heap S) :=
  match h.handles[p]? with
  | none => none
  | some handle =>
    match h.costFunctions[handle.hp_]? with
    | none => none
    | some s =>
      some { h with
        costFunctions := h.costFunctions.set handle.hp_
          (F.setCurrentStateAndControl s t x (List.replicate handle.INPUT_DIM 0)) }

/-- The call `p_->setCurrentStateAndControl(t, x, u)` through the handle of a wrapper. -/
def CostWrapper.setCurrentStateAndControl {S : Type} (F : CostFunctionBase S) (h : Heap S)
    (w : CostWrapper) (t : ℚ) (x u : List ℚ) : Option (Heap S) :=
  match w.p_ with
  | none => none
  | some p => CostHandle.setCurrentStateAndControl F h p t x u

/-- The handle object of a wrapper. -/
def CostWrapper.handle {S : Type} (h : Heap S) (w : CostWrapper) : Option CostHandle :=
  match w.p_ with
  | none => none
  | some p => h.handles[p]?

/-- The address of the cost function a wrapper owns: `p_->hp_`. -/
def CostWrapper.costAddress {S : Type} (h : Heap S) (w : CostWrapper) : Option Nat :=
  (w.handle h).map (fun handle => handle.hp_)

/-- The state of the cost function a wrapper owns: `*p_->hp_`. -/
def CostWrapper.costFunction {S : Type} (h : Heap S) (w : CostWrapper) : Option S :=
  match w.costAddress h with
  | none => none
  | some a => h.costFunctions[a]?

/-- The cost function a handle points to, `*hp_`, for the handle at address `p`. -/
def CostHandle.deref {S : Type} (h : Heap S) (p : Nat) : Option S :=
  match h.handles[p]? with
  | none => none
  | some handle => h.costFunctions[handle.hp_]?

/-- The accessor `CostHandle::getCost()`: the local `f` that
`hp_->getIntermediateCost(f)` writes. -/
def CostHandle.getCost {S : Type} (F : CostFunctionBase S) (h : Heap S) (p : Nat) :
    Option ℚ :=
  (CostHandle.deref h p).map F.getIntermediateCost

/-- The accessor `CostHandle::getCostDerivativeState()`: the local `dfdx` that
`hp_->getIntermediateCostDerivativeState(dfdx)` writes, returned as a dynamic-size
vector. -/
def CostHandle.getCostDerivativeState {S : Type} (F : CostFunctionBase S) (h : Heap S)
    (p : Nat) : Option (List ℚ) :=
  (CostHandle.deref h p).map F.getIntermediateCostDerivativeState

/-- The accessor `CostHandle::getCostDerivativeInput()`: the local `dfdu` that
`hp_->getIntermediateCostDerivativeInput(dfdu)` writes. -/
def CostHandle.getCostDerivativeInput {S : Type} (F : CostFunctionBase S) (h : Heap S)
    (p : Nat) : Option (List ℚ) :=
  (CostHandle.deref h p).map F.getIntermediateCostDerivativeInput

/-- The accessor `CostHandle::getCostSecondDerivativeState()`: the local `dfdxx` that
`hp_->getIntermediateCostSecondDerivativeState(dfdxx)` writes. -/
def CostHandle.getCostSecondDerivativeState {S : Type} (F : CostFunctionBase S) (h : Heap S)
    (p : Nat) : Option (List (List ℚ)) :=
  (CostHandle.deref h p).map F.getIntermediateCostSecondDerivativeState

/-- The accessor `CostHandle::getCostSecondDerivativeInput()`: the local `dfduu` that
`hp_->getIntermediateCostSecondDerivativeInput(dfduu)` writes. -/
def CostHandle.getCostSecondDerivativeInput {S : Type} (F : CostFunctionBase S) (h : Heap S)
    (p : Nat) : Option (List (List ℚ)) :=
  (CostHandle.deref h p).map F.getIntermediateCostSecondDerivativeInput

/-- The accessor `CostHandle::getCostDerivativeInputState()`: the local `dfdux` that
`hp_->getIntermediateCostDerivativeInputState(dfdux)` writes. -/
def CostHandle.getCostDerivativeInputState {S : Type} (F : CostFunctionBase S) (h : Heap S)
    (p : Nat) : Option (List (List ℚ)) :=
  (CostHandle.deref h p).map F.getIntermediateCostDerivativeInputState

/-- The accessor `CostHandle::getTerminalCost()`: the local `f` that
`hp_->getTerminalCost(f)` writes. -/
def CostHandle.getTerminalCost {S : Type} (F : CostFunctionBase S) (h : Heap S) (p : Nat) :
    Option ℚ :=
  (CostHandle.deref h p).map F.getTerminalCost

/-- The accessor `CostHandle::getTerminalCostDerivativeState()`: the local `dfdx` that
`hp_->getTerminalCostDerivativeState(dfdx)` writes. -/
def CostHandle.getTerminalCostDerivativeState {S : Type} (F : CostFunctionBase S)
    (h : Heap S) (p : Nat) : Option (List ℚ) :=
  (CostHandle.deref h p).map F.getTerminalCostDerivativeState

/-- The accessor `CostHandle::getTerminalCostSecondDerivativeState()`: the local `dfdxx`
that `hp_->getTerminalCostSecondDerivativeState(dfdxx)` writes. -/
def CostHandle.getTerminalCostSecondDerivativeState {S : Type} (F : CostFunctionBase S)
    (h : Heap S) (p : Nat) : Option (List (List ℚ)) :=
  (CostHandle.deref h p).map F.getTerminalCostSecondDerivativeState

/-- A matrix of `rows` rows with `cols` entries each. -/
def isMatrix (rows cols : Nat) (M : List (List ℚ)) : Prop :=
  M.length = rows ∧ ∀ row ∈ M, row.length = cols

instance (rows cols : Nat) (M : List (List ℚ)) : Decidable (isMatrix rows cols M) := by
  unfold isMatrix
  infer_instance

/-- The fixed sizes of the types `state_vector_t`, `input_vector_t`, `state_matrix_t`,
`input_matrix_t` and `input_state_matrix_t` of `CostFunctionBase<STATE_DIM, INPUT_DIM>`:
what the getters of a cost function of these dimensions write in state `s`. -/
def CostFunctionBase.hasDimensions {S : Type} (F : CostFunctionBase S)
    (STATE_DIM INPUT_DIM : Nat) (s : S) : Prop :=
  (F.getIntermediateCostDerivativeState s).length = STATE_DIM ∧
  (F.getIntermediateCostDerivativeInput s).length = INPUT_DIM ∧
  isMatrix STATE_DIM STATE_DIM (F.getIntermediateCostSecondDerivativeState s) ∧
  isMatrix INPUT_DIM INPUT_DIM (F.getIntermediateCostSecondDerivativeInput s) ∧
  isMatrix INPUT_DIM STATE_DIM (F.getIntermediateCostDerivativeInputState s) ∧
  (F.getTerminalCostDerivativeState s).length = STATE_DIM ∧
  isMatrix STATE_DIM STATE_DIM (F.getTerminalCostSecondDerivativeState s)

instance {S : Type} (F : CostFunctionBase S) (STATE_DIM INPUT_DIM : Nat) (s : S) :
    Decidable (F.hasDimensions STATE_DIM INPUT_DIM s) := by
  unfold CostFunctionBase.hasDimensions
  infer_instance

/-- The memory of a program that assigns wrappers: the heap, the `CostWrapper` objects
(variables and temporaries, each addressed by its position), and the addresses of the
handles and cost functions that have been deleted. -/
structure Memory (S : Type) where
  heap : Heap S
  wrappers : List CostWrapper
  deletedHandles : List Nat
  deletedCostFunctions : List Nat

/-- The right-hand side of an assignment to a `CostWrapper`: an lvalue that names the
wrapper object at an address and binds to `const CostWrapper&`, or an rvalue (a
temporary at an address) that binds to `CostWrapper&&`. -/
inductive Argument where
  | lvalue (other : Nat)
  | rvalue (temp : Nat)
  deriving DecidableEq, Repr

/-- The expression `CostWrapper(other)`: the copy constructor materialises a temporary
wrapper for the wrapper object at address `other`; returns the address of the
temporary. -/
def CostWrapper.copyConstruct {S : Type} (F : CostFunctionBase S) (m : Memory S)
    (other : Nat) : Option (Memory S × Nat) :=
  match m.wrappers[other]? with
  | none => none
  | some b =>
    match CostWrapper.copy F m.heap b with
    | none => none
    | some (h1, w) => some ({ m with heap := h1, wrappers := m.wrappers ++ [w] }, m.wrappers.length)

/-- The deleter of `std::unique_ptr<CostHandleBase>`: nothing for the null pointer;
otherwise the handle is destroyed, and its member `hp_` destroys the cost function the
handle owns. -/
def Memory.deleteHandle {S : Type} (m : Memory S) (p : Option Nat) : Memory S :=
  match p with
  | none => m
  | some q =>
    { m with
      deletedHandles := m.deletedHandles ++ [q]
      deletedCostFunctions := m.deletedCostFunctions ++
        (match m.heap.handles[q]? with
          | none => []
          | some handle => [handle.hp_]) }

/-- The defaulted move assignment `CostWrapper& operator=(CostWrapper&&)` of the wrapper
at address `this` from the wrapper at address `temp`: `p_ = std::move(temp.p_)`, which
is `p_.reset(temp.p_.release())`: the pointer of `temp` is released, stored in `p_`, and
the handle `p_` held before is deleted. -/
def CostWrapper.moveAssign {S : Type} (m : Memory S) (this temp : Nat) : Option (Memory S) :=
  match m.wrappers[temp]? with
  | none => none
  | some t =>
    let released := m.wrappers.set temp ⟨none⟩
    match released[this]? with
    | none => none
    | some a => some (Memory.deleteHandle { m with wrappers := released.set this ⟨t.p_⟩ } a.p_)

/-- The assignment expression `*this = arg` for the wrapper at address `this`. Overload
resolution selects `operator=(CostWrapper&&)` for an rvalue and
`operator=(const CostWrapper&)` for an lvalue; the body of the latter is
`*this = CostWrapper(other)`, an assignment from a temporary. -/
def CostWrapper.assign {S : Type} (F : CostFunctionBase S) :
    Memory S → Nat → Argument → Option (Memory S)
  | m, this, Argument.rvalue temp => CostWrapper.moveAssign m this temp
  | m, this, Argument.lvalue other =>
    match CostWrapper.copyConstruct F m other with
    | none => none
    | some (m1, temp) => CostWrapper.assign F m1 this (Argument.rvalue temp)
termination_by _ _ arg => match arg with
  | Argument.lvalue _ => 1
  | Argument.rvalue _ => 0

/-- The copy assignment `CostWrapper& operator=(const CostWrapper& other)` of the wrapper
at address `this`. -/
def CostWrapper.copyAssign {S : Type} (F : CostFunctionBase S) (m : Memory S)
    (this other : Nat) : Option (Memory S) :=
  CostWrapper.assign F m this (Argument.lvalue other)

end qp_solver

/-! ## Concrete inputs -/

/-- A linear-feedback controller with two states and one input on the time grid
0, 1, 2. -/
def exampleController : Controller 2 1 :=
  { type := ControllerType.LINEAR
    timeGrid := [0, 1, 2]
    gain := [[[1, 2]], [[3, 4]], [[5, 6]]]
    bias := [[7], [8], [9]] }

/-- A cost function whose state is the `(t, x, u)` last set: the quadratic cost
`x.x + u.u` with terminal cost `x.x`. -/
def exampleCostFunction : qp_solver.CostFunctionBase (ℚ × List ℚ × List ℚ) :=
  { clone := fun s => s
    setCurrentStateAndControl := fun _ t x u => (t, x, u)
    getIntermediateCost := fun s => dot s.2.1 s.2.1 + dot s.2.2 s.2.2
    getIntermediateCostDerivativeState := fun s => s.2.1.map (fun xi => 2 * xi)
    getIntermediateCostDerivativeInput := fun s => s.2.2.map (fun ui => 2 * ui)
    getIntermediateCostSecondDerivativeState := fun s =>
      (List.range s.2.1.length).map (fun i =>
        (List.range s.2.1.length).map (fun j => if i = j then 2 else 0))
    getIntermediateCostSecondDerivativeInput := fun s =>
      (List.range s.2.2.length).map (fun i =>
        (List.range s.2.2.length).map (fun j => if i = j then 2 else 0))
    getIntermediateCostDerivativeInputState := fun s =>
      List.replicate s.2.2.length (List.replicate s.2.1.length 0)
    getTerminalCost := fun s => dot s.2.1 s.2.1
    getTerminalCostDerivativeState := fun s => s.2.1.map (fun xi => 2 * xi)
    getTerminalCostSecondDerivativeState := fun s =>
      (List.range s.2.1.length).map (fun i =>
        (List.range s.2.1.length).map (fun j => if i = j then 2 else 0)) }

/-- A heap that holds one cost function, set at time 0, state (0, 2) and input (0),
and no handle. -/
def exampleHeap : qp_solver.Heap (ℚ × List ℚ × List ℚ) :=
  { costFunctions := [(0, [0, 2], [0])], handles := [] }

/-- Values for the settings that the regression tests leave at their default. -/
def exampleDefaults : Settings :=
  { absTolODE := 1 / 10 ^ 9
    relTolODE := 1 / 10 ^ 6
    maxNumStepsPerSecond := 5000
    nThreads := 1
    maxNumIterations := 15
    lsStepsizeGreedy := true
    noStateConstraints := false
    minLearningRate := 1 / 20
    minRelCost := 1 / 1000
    minRelConstraint1ISE := 1 / 1000
    checkNumericalStability := true
    displayInfo := false
    displayShortSummary := false }

/-- The settings of the SLQ regression test with `maxNumIterations` forced to 0. -/
def zeroIterationSettings : Settings :=
  { exp0_slq_test.ddpSettings exampleDefaults with maxNumIterations := 0 }

/-- The settings of the SLQ regression test. -/
def exp0Settings : Settings :=
  exp0_slq_test.ddpSettings exampleDefaults

/-- The settings of the SLQ regression test with the exhaustive line search and
`minLearningRate` 1/2, so that the candidate step sizes are 1 and 1/2. -/
def exhaustiveSettings : Settings :=
  { exp0_slq_test.ddpSettings exampleDefaults with
    lsStepsizeGreedy := false
    minLearningRate := 1 / 2 }

/-- The controller of the initial operating trajectory and its baseline cost 10. -/
def exampleInitialPolicy : Policy (Controller 2 1) :=
  { controller := exampleController.setZero
    performance := { totalCost := 10, constraint1ISE := 0, constraint2ISE := 0 } }

/-- Stages that succeed in every iteration; the candidate for step size `α` is
`exampleController` with total cost `10 - α`. -/
def exampleReports : Nat → StageReport (Controller 2 1) :=
  fun _ =>
    { modelOk := true
      riccatiOk := true
      rollout := fun α =>
        { controller := exampleController
          performance := { totalCost := 10 - α, constraint1ISE := 0, constraint2ISE := 0 } } }

/-- Stages that succeed in every iteration; the candidate for step size `α` is
`exampleController` with total cost `10 + α`, worse than the baseline. -/
def worseReports : Nat → StageReport (Controller 2 1) :=
  fun _ =>
    { modelOk := true
      riccatiOk := true
      rollout := fun α =>
        { controller := exampleController
          performance := { totalCost := 10 + α, constraint1ISE := 0, constraint2ISE := 0 } } }

/-- Stages that succeed in every iteration; the candidate for step size `α` is
`exampleController` with total cost `10 - α / 1000`, a gain below `minRelCost`. -/
def smallGainReports : Nat → StageReport (Controller 2 1) :=
  fun _ =>
    { modelOk := true
      riccatiOk := true
      rollout := fun α =>
        { controller := exampleController
          performance :=
            { totalCost := 10 - α / 1000, constraint1ISE := 0, constraint2ISE := 0 } } }

/-- A memory with two wrappers: the wrapper at address 0 owns the handle at address 0
and the wrapper at address 1 owns the handle at address 1, each handle with a cost
function of two states and one input; nothing has been deleted. -/
def exampleMemory : qp_solver.Memory (ℚ × List ℚ × List ℚ) :=
  { heap :=
      { costFunctions := [(0, [0, 2], [0]), (1, [1, 1], [1])]
        handles := [qp_solver.CostHandle.mk 2 1 0, qp_solver.CostHandle.mk 2 1 1] }
    wrappers := [qp_solver.CostWrapper.mk (some 0), qp_solver.CostWrapper.mk (some 1)]
    deletedHandles := []
    deletedCostFunctions := [] }

/-! ## Helper lemmas: interpolation and flat arrays -/

theorem interpolate_head {α : Type} (zero : α) (lerp : ℚ → α → α → α) (t0 : ℚ) (ts : List ℚ)
    (v0 : α) (vs : List α) :
    interpolate zero lerp t0 (t0 :: ts) (v0 :: vs) = v0 := by
  cases ts with
  | nil => simp [interpolate]
  | cons t1 ts => simp [interpolate]

theorem interpolate_skip {α : Type} (zero : α) (lerp : ℚ → α → α → α) (t t0 t1 : ℚ)
    (ts : List ℚ) (v0 v1 : α) (vs : List α) (h0 : t0 < t) (h1 : t1 ≤ t) :
    interpolate zero lerp t (t0 :: t1 :: ts) (v0 :: v1 :: vs)
      = interpolate zero lerp t (t1 :: ts) (v1 :: vs) := by
  simp [interpolate, not_le.mpr h0, not_lt.mpr h1]

/-- On a strictly increasing grid the interpolation returns, at every sample, the
value stored for that sample. -/
theorem interpolate_samples {α : Type} (zero : α) (lerp : ℚ → α → α → α) :
    ∀ (ts : List ℚ) (vs : List α), ts.Pairwise (fun a b => a < b) → vs.length = ts.length →
      ts.map (fun t => interpolate zero lerp t ts vs) = vs := by
  intro ts
  induction ts with
  | nil =>
    intro vs _ hlen
    cases vs with
    | nil => rfl
    | cons v vs => simp at hlen
  | cons t0 ts ih =>
    intro vs hp hlen
    cases vs with
    | nil => simp at hlen
    | cons v0 vs =>
      rw [List.pairwise_cons] at hp
      have hlen2 : vs.length = ts.length := by simpa using hlen
      rw [List.map_cons, interpolate_head]
      congr 1
      refine Eq.trans (List.map_congr_left ?_) (ih vs hp.2 hlen2)
      intro t ht
      cases ts with
      | nil => simp at ht
      | cons t1 ts =>
        cases vs with
        | nil => simp at hlen2
        | cons v1 vs =>
          have h0 : t0 < t := hp.1 t ht
          have h1 : t1 ≤ t := by
            rcases List.mem_cons.mp ht with h | h
            · exact le_of_eq h.symm
            · exact le_of_lt ((List.pairwise_cons.mp hp.2).1 t h)
          exact interpolate_skip zero lerp t t0 t1 ts v0 v1 vs h0 h1

theorem toRows_flatten (m : Nat) :
    ∀ (K : List (List ℚ)) (rest : List ℚ), (∀ row ∈ K, row.length = m) →
      Controller.toRows m K.length (K.flatten ++ rest) = K := by
  intro K
  induction K with
  | nil => intro rest _; rfl
  | cons r K ih =>
    intro rest h
    have hr : r.length = m := h r (List.mem_cons_self r K)
    have hK : ∀ row ∈ K, row.length = m := fun row hrow => h row (List.mem_cons_of_mem r hrow)
    simp only [List.length_cons, List.flatten_cons, Controller.toRows, List.append_assoc]
    rw [List.take_left' hr, List.drop_left' hr, ih rest hK]

theorem length_flatten_uniform (m : Nat) :
    ∀ (K : List (List ℚ)), (∀ row ∈ K, row.length = m) → K.flatten.length = K.length * m := by
  intro K
  induction K with
  | nil => intro _; simp
  | cons r K ih =>
    intro h
    have hr : r.length = m := h r (List.mem_cons_self r K)
    have hK : ∀ row ∈ K, row.length = m := fun row hrow => h row (List.mem_cons_of_mem r hrow)
    simp only [List.flatten_cons, List.length_append, List.length_cons, ih hK, hr]
    ring

/-- At a sample of a well-formed controller the interpolated bias is one of the
stored bias vectors. -/
theorem biasAt_mem {STATE_DIM INPUT_DIM : Nat} (c : Controller STATE_DIM INPUT_DIM)
    (hwf : c.WellFormed) (t : ℚ) (ht : t ∈ c.timeGrid) : c.biasAt t ∈ c.bias := by
  have h := interpolate_samples [] lerpVector c.timeGrid c.bias hwf.1 hwf.2.1
  have hm : c.biasAt t ∈ c.timeGrid.map (fun t => interpolate [] lerpVector t c.timeGrid c.bias) :=
    List.mem_map_of_mem (fun t => interpolate [] lerpVector t c.timeGrid c.bias) ht
  rw [h] at hm
  exact hm

/-- At a sample of a well-formed linear-feedback controller the interpolated gain is
one of the stored gain matrices. -/
theorem gainAt_mem {STATE_DIM INPUT_DIM : Nat} (c : Controller STATE_DIM INPUT_DIM)
    (hwf : c.WellFormed) (hlin : c.type = ControllerType.LINEAR) (t : ℚ)
    (ht : t ∈ c.timeGrid) : c.gainAt t ∈ c.gain := by
  have h := interpolate_samples [] lerpMatrix c.timeGrid c.gain hwf.1 (hwf.2.2.2.2 hlin).1
  have hm : c.gainAt t ∈ c.timeGrid.map (fun t => interpolate [] lerpMatrix t c.timeGrid c.gain) :=
    List.mem_map_of_mem (fun t => interpolate [] lerpMatrix t c.timeGrid c.gain) ht
  rw [h] at hm
  exact hm

/-- Restoring a well-formed controller from its own flat arrays, taken at the samples
of its time grid, gives back its time grid, gains and biases. -/
theorem unFlatten_flatten_eq {STATE_DIM INPUT_DIM : Nat} (c c' : Controller STATE_DIM INPUT_DIM)
    (hwf : c.WellFormed) (htype : c'.type = c.type) :
    c'.unFlatten c.timeGrid (c.timeGrid.map c.flatten) = c := by
  have hb := interpolate_samples [] lerpVector c.timeGrid c.bias hwf.1 hwf.2.1
  obtain ⟨ty, tg, g, b⟩ := c
  simp only at htype
  cases ty with
  | FEEDFORWARD =>
    have hg : g = [] := hwf.2.2.2.1 rfl
    subst hg
    simp only [Controller.unFlatten, htype, List.map_map, Controller.mk.injEq, true_and]
    refine Eq.trans (List.map_congr_left ?_) hb
    intro t _
    simp [Controller.unFlattenBias, Controller.flatten, Controller.biasAt]
  | LINEAR =>
    have hg := interpolate_samples [] lerpMatrix tg g hwf.1 (hwf.2.2.2.2 rfl).1
    simp only [Controller.unFlatten, htype, List.map_map, Controller.mk.injEq, true_and]
    constructor
    · refine Eq.trans (List.map_congr_left ?_) hg
      intro t ht
      have hm := gainAt_mem _ hwf rfl t ht
      have hK := (hwf.2.2.2.2 rfl).2 _ hm
      simp only [Function.comp, Controller.unFlattenGain, Controller.flatten]
      have hrows := toRows_flatten STATE_DIM _
        (Controller.biasAt (⟨ControllerType.LINEAR, tg, g, b⟩ : Controller STATE_DIM INPUT_DIM) t)
        hK.2
      rw [hK.1] at hrows
      exact hrows
    · refine Eq.trans (List.map_congr_left ?_) hb
      intro t ht
      have hm := gainAt_mem _ hwf rfl t ht
      have hK := (hwf.2.2.2.2 rfl).2 _ hm
      have hbl := hwf.2.2.1 _ (biasAt_mem _ hwf t ht)
      have hlen := length_flatten_uniform STATE_DIM _ hK.2
      rw [hK.1] at hlen
      simp only [Function.comp, Controller.unFlattenBias, Controller.flatten]
      rw [List.drop_left' hlen, List.take_of_length_le (le_of_eq hbl)]
      rfl

/-- A call of `unFlatten` with one or more flat arrays leaves the controller
populated, whatever it held before. -/
theorem unFlatten_populated {STATE_DIM INPUT_DIM : Nat} (c : Controller STATE_DIM INPUT_DIM)
    (timeArray : List ℚ) (flatArray2 : List (List ℚ)) (h : flatArray2 ≠ []) :
    (c.unFlatten timeArray flatArray2).empty = false := by
  cases flatArray2 with
  | nil => exact absurd rfl h
  | cons a rest => simp [Controller.unFlatten, Controller.empty]

/-- A call of `unFlatten` without any time sample and flat array, which the interface
of section 6 does not provide for, would leave the controller as `clear()` does. -/
theorem unFlatten_nil_eq_clear {STATE_DIM INPUT_DIM : Nat}
    (c : Controller STATE_DIM INPUT_DIM) : c.unFlatten [] [] = c.clear := by
  cases hty : c.type <;> simp [Controller.unFlatten, Controller.clear, hty]

/-! ## Helper lemmas: line search and iteration controller -/

theorem foldl_better_mem {C : Type} :
    ∀ (ps : List (Policy C)) (p : Policy C), ps.foldl better p ∈ p :: ps := by
  intro ps
  induction ps with
  | nil => intro p; simp
  | cons q ps ih =>
    intro p
    rw [List.foldl_cons]
    have h := ih (better p q)
    rcases List.mem_cons.mp h with h1 | h1
    · rw [h1]
      unfold better
      split
      · exact List.mem_cons_of_mem _ (List.mem_cons_self _ _)
      · exact List.mem_cons_self _ _
    · exact List.mem_cons_of_mem _ (List.mem_cons_of_mem _ h1)

theorem best_mem {C : Type} (l : List (Policy C)) (p : Policy C) (h : best l = some p) :
    p ∈ l := by
  cases l with
  | nil => simp [best] at h
  | cons q qs =>
    simp only [best, Option.some.injEq] at h
    rw [← h]
    exact foldl_better_mem qs q

/-- A candidate returned by the greedy line search passed the acceptance test. -/
theorem lineSearch_accepts {C : Type} (s : Settings) (noiseThreshold : ℚ)
    (hg : s.lsStepsizeGreedy = true) (baseline : PerformanceIndex) (rollout : ℚ → Policy C)
    (p : Policy C) (h : lineSearch s noiseThreshold baseline rollout = some p) :
    accepts noiseThreshold baseline p.performance = true := by
  unfold lineSearch at h
  simp only [hg, if_true] at h
  have hm := List.mem_of_mem_head? h
  exact (List.mem_filter.mp hm).2

/-- A candidate returned by the greedy line search costs less than the baseline. -/
theorem lineSearch_decreases {C : Type} (s : Settings) (noiseThreshold : ℚ)
    (hg : s.lsStepsizeGreedy = true) (baseline : PerformanceIndex) (rollout : ℚ → Policy C)
    (p : Policy C) (h : lineSearch s noiseThreshold baseline rollout = some p) :
    p.performance.totalCost < baseline.totalCost := by
  have ha := lineSearch_accepts s noiseThreshold hg baseline rollout p h
  simp only [accepts, Bool.and_eq_true, decide_eq_true_eq] at ha
  exact ha.1

/-- With the greedy line search no transition makes the accepted performance index
worse than the one of the previous iteration. -/
theorem step_not_worse {C : Type} (s : Settings) (noiseThreshold : ℚ)
    (hg : s.lsStepsizeGreedy = true) (r : StageReport C) (st : IterationState C)
    (h : st.accepted.performance.totalCost ≤ st.previous.totalCost) :
    (step s noiseThreshold r st).accepted.performance.totalCost
      ≤ (step s noiseThreshold r st).previous.totalCost := by
  obtain ⟨ph, it, acc, prev⟩ := st
  cases ph
  case ForwardPass =>
    simp only [step]
    split
    · exact h
    · cases hls : lineSearch s noiseThreshold acc.performance r.rollout with
      | none => simp
      | some p =>
        simp only [Option.getD_some]
        exact le_of_lt (lineSearch_decreases s noiseThreshold hg acc.performance r.rollout p hls)
  all_goals
    simp only [step]
    first
      | exact h
      | (split <;> exact h)

theorem runSteps_not_worse {C : Type} (s : Settings) (noiseThreshold : ℚ)
    (hg : s.lsStepsizeGreedy = true) (reports : Nat → StageReport C) :
    ∀ (n : Nat) (st : IterationState C),
      st.accepted.performance.totalCost ≤ st.previous.totalCost →
      (runSteps s noiseThreshold reports n st).accepted.performance.totalCost
        ≤ (runSteps s noiseThreshold reports n st).previous.totalCost := by
  intro n
  induction n with
  | zero => intro st h; exact h
  | succ n ih =>
    intro st h
    exact ih _ (step_not_worse s noiseThreshold hg (reports st.iteration) st h)

/-- A terminal state is not left. -/
theorem step_terminal {C : Type} (s : Settings) (noiseThreshold : ℚ) (r : StageReport C)
    (st : IterationState C) (h : st.terminal = true) : step s noiseThreshold r st = st := by
  obtain ⟨ph, it, acc, prev⟩ := st
  cases ph <;> simp [IterationState.terminal] at h <;> simp [step]

theorem runSteps_terminal {C : Type} (s : Settings) (noiseThreshold : ℚ)
    (reports : Nat → StageReport C) :
    ∀ (n : Nat) (st : IterationState C), st.terminal = true →
      runSteps s noiseThreshold reports n st = st := by
  intro n
  induction n with
  | zero => intro st _; rfl
  | succ n ih =>
    intro st h
    simp only [runSteps]
    rw [step_terminal s noiseThreshold _ st h]
    exact ih st h

theorem runSteps_add {C : Type} (s : Settings) (noiseThreshold : ℚ)
    (reports : Nat → StageReport C) :
    ∀ (n m : Nat) (st : IterationState C),
      runSteps s noiseThreshold reports (n + m) st
        = runSteps s noiseThreshold reports m (runSteps s noiseThreshold reports n st) := by
  intro n
  induction n with
  | zero => intro m st; simp [runSteps]
  | succ n ih =>
    intro m st
    rw [Nat.add_right_comm]
    simp only [runSteps]
    exact ih m _

/-- A transition from a state that is not terminal uses up one of the remaining
transitions and keeps the iteration count below the cap unless it ends the run. -/
theorem step_progress {C : Type} (s : Settings) (noiseThreshold : ℚ) (r : StageReport C)
    (st : IterationState C) (hnt : st.terminal = false)
    (hit : st.iteration < max s.maxNumIterations 1) :
    ((step s noiseThreshold r st).terminal = true
      ∨ (step s noiseThreshold r st).iteration < max s.maxNumIterations 1) ∧
    remainingTransitions s (step s noiseThreshold r st) + 1 ≤ remainingTransitions s st := by
  obtain ⟨ph, it, acc, prev⟩ := st
  have hM : s.maxNumIterations ≤ max s.maxNumIterations 1 := le_max_left _ _
  simp only at hit
  cases ph
  case Initializing =>
    simp only [step, remainingTransitions, IterationState.terminal]
    generalize max s.maxNumIterations 1 = M at hit hM ⊢
    exact ⟨Or.inr hit, by omega⟩
  case BuildingModel =>
    cases hm : r.modelOk <;>
      simp only [step, hm, remainingTransitions, IterationState.terminal, Bool.false_eq_true,
        if_false, if_true] <;>
      generalize max s.maxNumIterations 1 = M at hit hM ⊢
    · exact ⟨Or.inl (by decide), by omega⟩
    · exact ⟨Or.inr hit, by omega⟩
  case BackwardPass =>
    cases hm : r.riccatiOk <;>
      simp only [step, hm, remainingTransitions, IterationState.terminal, Bool.false_eq_true,
        if_false, if_true] <;>
      generalize max s.maxNumIterations 1 = M at hit hM ⊢
    · exact ⟨Or.inl (by decide), by omega⟩
    · exact ⟨Or.inr hit, by omega⟩
  case ForwardPass =>
    simp only [step]
    by_cases hcap : s.maxNumIterations ≤ it
    · simp only [hcap, if_true, remainingTransitions, IterationState.terminal]
      generalize max s.maxNumIterations 1 = M at hit hM ⊢
      exact ⟨Or.inl (by decide), by omega⟩
    · simp only [hcap, if_false]
      cases hc : ((lineSearch s noiseThreshold acc.performance r.rollout).isSome
          && decide (s.minRelCost ≤ relativeImprovement acc.performance.totalCost
              ((lineSearch s noiseThreshold acc.performance r.rollout).getD
                acc).performance.totalCost)
          && decide (it + 1 < s.maxNumIterations))
      · simp only [remainingTransitions, IterationState.terminal, Bool.false_eq_true,
          if_false]
        generalize max s.maxNumIterations 1 = M at hit hM ⊢
        exact ⟨Or.inl (by decide), by omega⟩
      · have hlt : it + 1 < s.maxNumIterations := by
          simp only [Bool.and_eq_true, decide_eq_true_eq] at hc
          exact hc.2
        simp only [remainingTransitions, IterationState.terminal, if_true]
        generalize max s.maxNumIterations 1 = M at hit hM ⊢
        exact ⟨Or.inr (by omega), by omega⟩
  case Converged => simp [IterationState.terminal] at hnt
  case Failed => simp [IterationState.terminal] at hnt

/-- Once the bound on the remaining transitions is used up, the state is terminal. -/
theorem runSteps_reaches_terminal {C : Type} (s : Settings) (noiseThreshold : ℚ)
    (reports : Nat → StageReport C) :
    ∀ (n : Nat) (st : IterationState C),
      (st.terminal = true ∨ st.iteration < max s.maxNumIterations 1) →
      remainingTransitions s st ≤ n →
      (runSteps s noiseThreshold reports n st).terminal = true := by
  intro n
  induction n with
  | zero =>
    intro st hinv hrem
    cases ht : st.terminal
    · exfalso
      rcases hinv with h | h
      · rw [ht] at h
        cases h
      · obtain ⟨ph, it, acc, prev⟩ := st
        have hM : s.maxNumIterations ≤ max s.maxNumIterations 1 := le_max_left _ _
        simp only at h
        cases ph <;> simp only [remainingTransitions] at hrem <;>
          first
            | (generalize max s.maxNumIterations 1 = M at h hM hrem; omega)
            | simp [IterationState.terminal] at ht
    · simp only [runSteps]
      exact ht
  | succ n ih =>
    intro st hinv hrem
    cases ht : st.terminal
    · have hit : st.iteration < max s.maxNumIterations 1 := by
        rcases hinv with h | h
        · rw [ht] at h
          cases h
        · exact h
      have hp := step_progress s noiseThreshold (reports st.iteration) st ht hit
      simp only [runSteps]
      exact ih _ hp.1 (by omega)
    · rw [runSteps_terminal s noiseThreshold reports (n + 1) st ht]
      exact ht

/-- Every run ends in a terminal state. -/
theorem run_terminal {C : Type} (s : Settings) (noiseThreshold : ℚ)
    (reports : Nat → StageReport C) (init : Policy C) :
    (run s noiseThreshold reports init).terminal = true := by
  apply runSteps_reaches_terminal
  · right
    simp [initialState]
  · simp [remainingTransitions, initialState, maxNumTransitions]
    omega

/-- When `n` halvings bring the step size below `minLearningRate`, a bound larger than
`n` on the number of step sizes gives the same step sizes. -/
theorem stepSizes_bound_irrelevant (m : ℚ) :
    ∀ (n k : Nat) (α : ℚ), α < m * 2 ^ n →
      stepSizes m (n + k) α = stepSizes m n α := by
  intro n
  induction n with
  | zero =>
    intro k α hα
    have hlt : α < m := by simpa using hα
    cases k with
    | zero => rfl
    | succ k => simp [stepSizes, hlt]
  | succ n ih =>
    intro k α hα
    rw [Nat.add_right_comm]
    simp only [stepSizes]
    split
    · rfl
    · congr 1
      apply ih
      rw [pow_succ] at hα
      linarith

/-- For a positive `minLearningRate` the halving from 1.0 ends because the step size
falls below `minLearningRate`, not because `maxNumStepSizes` is reached. -/
theorem maxNumStepSizes_enough (m : ℚ) (hm : 0 < m) (k : Nat) :
    stepSizes m (maxNumStepSizes m + k) 1 = stepSizes m (maxNumStepSizes m) 1 := by
  apply stepSizes_bound_irrelevant m
  unfold maxNumStepSizes
  have h1 : 1 / m ≤ (⌈1 / m⌉₊ : ℚ) := Nat.le_ceil _
  have h2 : ((⌈1 / m⌉₊ + 1 : ℕ) : ℚ) < 2 ^ (⌈1 / m⌉₊ + 1) := by
    exact_mod_cast Nat.lt_two_pow (⌈1 / m⌉₊ + 1)
  have h3 : 1 / m < 2 ^ (⌈1 / m⌉₊ + 1) := by
    push_cast at h2
    linarith
  rw [div_lt_iff₀ hm] at h3
  linarith

/-- The greedy line search returns the candidate of step size 1 when it passes the
acceptance test and `minLearningRate` is at most 1. -/
theorem lineSearch_greedy_first {C : Type} (s : Settings) (noiseThreshold : ℚ)
    (baseline : PerformanceIndex) (rollout : ℚ → Policy C) (hg : s.lsStepsizeGreedy = true)
    (hm : s.minLearningRate ≤ 1)
    (ha : accepts noiseThreshold baseline (rollout 1).performance = true) :
    lineSearch s noiseThreshold baseline rollout = some (rollout 1) := by
  simp [lineSearch, hg, maxNumStepSizes, stepSizes, not_lt.mpr hm, List.filter_cons, ha]

/-- With `maxNumIterations = 0` and successful stages the iteration controller makes
exactly one pass through BuildingModel, BackwardPass and ForwardPass and ends in
Converged with the controller and performance index it started with. -/
theorem zero_iterations_single_pass {C : Type} (s : Settings) (noiseThreshold : ℚ)
    (reports : Nat → StageReport C) (init : Policy C) (h0 : s.maxNumIterations = 0)
    (hm : (reports 0).modelOk = true) (hr : (reports 0).riccatiOk = true) :
    (trajectory s noiseThreshold reports (maxNumTransitions s) (initialState init)).map
        (fun st => st.phase)
      = [Phase.Initializing, Phase.BuildingModel, Phase.BackwardPass, Phase.ForwardPass,
          Phase.Converged] ∧
    run s noiseThreshold reports init =
      { phase := Phase.Converged
        iteration := 0
        accepted := init
        previous := init.performance } := by
  have h4 : maxNumTransitions s = 4 := by simp [maxNumTransitions, h0]
  constructor
  · rw [h4]
    simp [trajectory, step, initialState, hm, hr, h0]
  · unfold run
    rw [h4]
    simp [runSteps, step, initialState, hm, hr, h0]

/-- With successful stages the first three transitions lead to ForwardPass, so the
state after four transitions is the result of the first forward pass. -/
theorem runSteps_first_pass {C : Type} (s : Settings) (noiseThreshold : ℚ)
    (reports : Nat → StageReport C) (init : Policy C)
    (hm : (reports 0).modelOk = true) (hr : (reports 0).riccatiOk = true) :
    runSteps s noiseThreshold reports 4 (initialState init)
      = step s noiseThreshold (reports 0)
          { phase := Phase.ForwardPass
            iteration := 0
            accepted := init
            previous := init.performance } := by
  simp [runSteps, step, initialState, hm, hr]

/-- Initializing always goes to BuildingModel. -/
theorem step_from_Initializing {C : Type} (s : Settings) (noiseThreshold : ℚ)
    (r : StageReport C) (st : IterationState C) (h : st.phase = Phase.Initializing) :
    (step s noiseThreshold r st).phase = Phase.BuildingModel := by
  obtain ⟨ph, it, acc, prev⟩ := st
  simp only at h
  subst h
  rfl

/-- Converged is entered only from ForwardPass. -/
theorem step_to_Converged {C : Type} (s : Settings) (noiseThreshold : ℚ)
    (r : StageReport C) (st : IterationState C)
    (h : (step s noiseThreshold r st).phase = Phase.Converged) :
    st.phase = Phase.ForwardPass ∨ st.phase = Phase.Converged := by
  obtain ⟨ph, it, acc, prev⟩ := st
  cases ph
  case ForwardPass => exact Or.inl rfl
  case Converged => exact Or.inr rfl
  case Initializing => simp [step] at h
  case BuildingModel =>
    simp only [step] at h
    split at h <;> simp at h
  case BackwardPass =>
    simp only [step] at h
    split at h <;> simp at h
  case Failed => simp [step] at h

/-- ForwardPass is entered only from BackwardPass. -/
theorem step_to_ForwardPass {C : Type} (s : Settings) (noiseThreshold : ℚ)
    (r : StageReport C) (st : IterationState C)
    (h : (step s noiseThreshold r st).phase = Phase.ForwardPass) :
    st.phase = Phase.BackwardPass := by
  obtain ⟨ph, it, acc, prev⟩ := st
  cases ph
  case BackwardPass => rfl
  case Initializing => simp [step] at h
  case BuildingModel =>
    simp only [step] at h
    split at h <;> simp at h
  case ForwardPass =>
    simp only [step] at h
    split at h
    · simp at h
    · simp only at h
      split at h <;> simp at h
  case Converged => simp [step] at h
  case Failed => simp [step] at h

/-- A run that reaches Converged from a state that is not Converged has been in
ForwardPass. -/
theorem converged_after_ForwardPass {C : Type} (s : Settings) (noiseThreshold : ℚ)
    (reports : Nat → StageReport C) :
    ∀ (n : Nat) (st : IterationState C), st.phase ≠ Phase.Converged →
      (runSteps s noiseThreshold reports n st).phase = Phase.Converged →
      Phase.ForwardPass ∈
        (trajectory s noiseThreshold reports n st).map (fun st => st.phase) := by
  intro n
  induction n with
  | zero =>
    intro st hne hc
    exact absurd hc hne
  | succ n ih =>
    intro st hne hc
    simp only [trajectory, List.map_cons, List.mem_cons]
    by_cases hstep : (step s noiseThreshold (reports st.iteration) st).phase = Phase.Converged
    · rcases step_to_Converged s noiseThreshold _ st hstep with h | h
      · exact Or.inl h.symm
      · exact absurd h hne
    · exact Or.inr (ih _ hstep hc)

/-- A run that reaches Converged from a state that is neither ForwardPass nor
Converged has been in BackwardPass. -/
theorem converged_after_BackwardPass {C : Type} (s : Settings) (noiseThreshold : ℚ)
    (reports : Nat → StageReport C) :
    ∀ (n : Nat) (st : IterationState C), st.phase ≠ Phase.Converged →
      st.phase ≠ Phase.ForwardPass →
      (runSteps s noiseThreshold reports n st).phase = Phase.Converged →
      Phase.BackwardPass ∈
        (trajectory s noiseThreshold reports n st).map (fun st => st.phase) := by
  intro n
  induction n with
  | zero =>
    intro st hne _ hc
    exact absurd hc hne
  | succ n ih =>
    intro st hne hnf hc
    simp only [trajectory, List.map_cons, List.mem_cons]
    by_cases hb : st.phase = Phase.BackwardPass
    · exact Or.inl hb.symm
    · right
      apply ih _ _ _ hc
      · intro hstep
        rcases step_to_Converged s noiseThreshold _ st hstep with h | h
        · exact hnf h
        · exact hne h
      · intro hstep
        exact hb (step_to_ForwardPass s noiseThreshold _ st hstep)

/-- The step sizes of `exhaustiveSettings` are 1 and 1/2. -/
theorem exhaustiveSettings_stepSizes :
    stepSizes exhaustiveSettings.minLearningRate
      (maxNumStepSizes exhaustiveSettings.minLearningRate) 1 = [1, 1 / 2] := by
  have hm : exhaustiveSettings.minLearningRate = 1 / 2 := rfl
  rw [hm]
  have h := stepSizes_bound_irrelevant (1 / 2) 2 (maxNumStepSizes (1 / 2) - 2) 1 (by norm_num)
  have hge : 2 ≤ maxNumStepSizes (1 / 2) := by
    unfold maxNumStepSizes
    have hpos : 0 < ⌈(1 : ℚ) / (1 / 2)⌉₊ := Nat.ceil_pos.mpr (by norm_num)
    omega
  rw [Nat.add_sub_cancel' hge] at h
  rw [h]
  norm_num [stepSizes]

/-- The exhaustive line search of `exhaustiveSettings` keeps, among the candidates of
`worseReports`, the one of step size 1/2 and total cost 21/2. -/
theorem exhaustiveSettings_lineSearch :
    lineSearch exhaustiveSettings 0 exampleInitialPolicy.performance
        (worseReports 0).rollout
      = some { controller := exampleController
               performance := { totalCost := 21 / 2, constraint1ISE := 0, constraint2ISE := 0 } } := by
  unfold lineSearch
  rw [exhaustiveSettings_stepSizes]
  have hg : exhaustiveSettings.lsStepsizeGreedy = false := rfl
  simp only [hg, Bool.false_eq_true, if_false, List.map_cons, List.map_nil, best,
    List.foldl_cons, List.foldl_nil, better, worseReports]
  norm_num

/-- The run of `exhaustiveSettings` on `worseReports` is in Converged after four
transitions, with total cost 21/2 against 10 for the previous iteration. -/
theorem exhaustiveRun_state :
    runSteps exhaustiveSettings 0 worseReports 4 (initialState exampleInitialPolicy)
      = { phase := Phase.Converged
          iteration := 1
          accepted :=
            { controller := exampleController
              performance :=
                { totalCost := 21 / 2, constraint1ISE := 0, constraint2ISE := 0 } }
          previous := { totalCost := 10, constraint1ISE := 0, constraint2ISE := 0 } } := by
  rw [runSteps_first_pass exhaustiveSettings 0 worseReports exampleInitialPolicy rfl rfl]
  have hcap : ¬ exhaustiveSettings.maxNumIterations ≤ 0 := by decide
  simp only [step, hcap, if_false, exhaustiveSettings_lineSearch, Option.getD_some,
    Option.isSome_some]
  have himp : ¬ exhaustiveSettings.minRelCost ≤ relativeImprovement 10 (21 / 2) := by
    simp only [exhaustiveSettings, exp0_slq_test.ddpSettings, relativeImprovement]
    norm_num
  simp [himp, exampleInitialPolicy]

/-- The greedy line search of the regression-test settings returns, among the
candidates of `smallGainReports`, the one of step size 1. -/
theorem exp0Settings_lineSearch :
    lineSearch exp0Settings 0 exampleInitialPolicy.performance (smallGainReports 0).rollout
      = some ((smallGainReports 0).rollout 1) := by
  apply lineSearch_greedy_first
  · rfl
  · simp only [exp0Settings, exp0_slq_test.ddpSettings]
    norm_num
  · simp only [accepts, exampleInitialPolicy, smallGainReports, Bool.and_eq_true,
      decide_eq_true_eq]
    norm_num

/-- The run of the regression-test settings on `smallGainReports` is in Converged after
four transitions: the relative improvement of the accepted candidate is below
`minRelCost`. -/
theorem smallGainRun_converged :
    (runSteps exp0Settings 0 smallGainReports 4
      (initialState exampleInitialPolicy)).phase = Phase.Converged := by
  rw [runSteps_first_pass exp0Settings 0 smallGainReports exampleInitialPolicy rfl rfl]
  have hcap : ¬ exp0Settings.maxNumIterations ≤ 0 := by decide
  simp only [step, hcap, if_false, exp0Settings_lineSearch, Option.getD_some,
    Option.isSome_some]
  have himp : ¬ exp0Settings.minRelCost ≤ relativeImprovement
      exampleInitialPolicy.performance.totalCost
      ((smallGainReports 0).rollout 1).performance.totalCost := by
    simp only [exp0Settings, exp0_slq_test.ddpSettings, relativeImprovement,
      exampleInitialPolicy, smallGainReports]
    norm_num
  simp [himp]

/-- The cost assertion of both tests passes exactly when the total cost is within
5e-3 of 9.7667, whatever the default settings are. -/
theorem exp0_cost_assertion (defaults : Settings) (totalCost : ℚ) :
    (ASSERT_LT_fabs totalCost exp0_slq_test.expectedCost
        (10 * (exp0_slq_test.ddpSettings defaults).minRelCost) = true
      ↔ |totalCost - 97667 / 10000| < 5 / 1000) ∧
    (ASSERT_LT_fabs totalCost exp0_ilqr_test.expectedCost
        (10 * (exp0_ilqr_test.ddpSettings defaults).minRelCost) = true
      ↔ |totalCost - 97667 / 10000| < 5 / 1000) := by
  constructor <;>
    simp only [ASSERT_LT_fabs, exp0_slq_test.expectedCost, exp0_slq_test.ddpSettings,
      exp0_ilqr_test.expectedCost, exp0_ilqr_test.ddpSettings, decide_eq_true_eq] <;>
    norm_num

/-- The bound of the constraint-ISE assertions of both tests is ten times the default
value of `minRelConstraint1ISE`, which the tests do not assign. -/
theorem exp0_ise_assertion (defaults : Settings) (constraintISE : ℚ) :
    (ASSERT_LT_fabs constraintISE 0
        (10 * (exp0_slq_test.ddpSettings defaults).minRelConstraint1ISE) = true
      ↔ |constraintISE| < 10 * defaults.minRelConstraint1ISE) ∧
    (ASSERT_LT_fabs constraintISE 0
        (10 * (exp0_ilqr_test.ddpSettings defaults).minRelConstraint1ISE) = true
      ↔ |constraintISE| < 10 * defaults.minRelConstraint1ISE) := by
  constructor <;>
    simp [ASSERT_LT_fabs, exp0_slq_test.ddpSettings, exp0_ilqr_test.ddpSettings]

/-! ## Helper lemmas: cost handle -/

/-- A call of `setCurrentStateAndControl(t, x, u)` through a handle that owns a cost
function in state `s` succeeds and leaves that cost function in the state the call of
the cost function gives. -/
theorem deref_setCurrentStateAndControl {S : Type} (F : qp_solver.CostFunctionBase S)
    (h : qp_solver.Heap S) (p : Nat) (handle : qp_solver.CostHandle) (s : S)
    (hp : h.handles[p]? = some handle) (hs : h.costFunctions[handle.hp_]? = some s)
    (t : ℚ) (x u : List ℚ) :
    ∃ h', qp_solver.CostHandle.setCurrentStateAndControl F h p t x u = some h' ∧
      h'.handles = h.handles ∧
      qp_solver.CostHandle.deref h' p = some (F.setCurrentStateAndControl s t x u) := by
  have hlt : handle.hp_ < h.costFunctions.length := by
    rcases Nat.lt_or_ge handle.hp_ h.costFunctions.length with hlt | hge
    · exact hlt
    · rw [List.getElem?_eq_none hge] at hs
      cases hs
  refine ⟨qp_solver.Heap.mk
    (h.costFunctions.set handle.hp_ (F.setCurrentStateAndControl s t x u)) h.handles,
    ?_, rfl, ?_⟩
  · simp [qp_solver.CostHandle.setCurrentStateAndControl, hp, hs]
  · simp [qp_solver.CostHandle.deref, hp, List.getElem?_set, hlt]

/-- The two-argument `setCurrentStateAndControl(t, x)` is the three-argument call with
the zero vector of length `INPUT_DIM`. -/
theorem setCurrentStateAndControl₂_eq {S : Type} (F : qp_solver.CostFunctionBase S)
    (h : qp_solver.Heap S) (p : Nat) (handle : qp_solver.CostHandle)
    (hp : h.handles[p]? = some handle) (t : ℚ) (x : List ℚ) :
    qp_solver.CostHandle.setCurrentStateAndControl₂ F h p t x
      = qp_solver.CostHandle.setCurrentStateAndControl F h p t x
          (List.replicate handle.INPUT_DIM 0) := by
  simp only [qp_solver.CostHandle.setCurrentStateAndControl₂,
    qp_solver.CostHandle.setCurrentStateAndControl, hp]

/-! ## Helper lemmas: assignment of wrappers -/

/-- The copy assignment is the copy construction of a temporary followed by the move
assignment from that temporary. -/
theorem copyAssign_eq {S : Type} (F : qp_solver.CostFunctionBase S) (m : qp_solver.Memory S)
    (this other : Nat) :
    qp_solver.CostWrapper.copyAssign F m this other
      = match qp_solver.CostWrapper.copyConstruct F m other with
        | none => none
        | some (m1, temp) => qp_solver.CostWrapper.moveAssign m1 this temp := by
  unfold qp_solver.CostWrapper.copyAssign
  rw [qp_solver.CostWrapper.assign]
  cases qp_solver.CostWrapper.copyConstruct F m other with
  | none => rfl
  | some r =>
    obtain ⟨m1, temp⟩ := r
    simp only
    rw [qp_solver.CostWrapper.assign]

/-- The memory after the copy assignment `a = b` for wrapper objects `a` at address
`this` and `b` at address `other`, where `b` holds the handle at `pb`, which owns a
cost function in state `s`. -/
theorem copyAssign_memory {S : Type} (F : qp_solver.CostFunctionBase S)
    (m : qp_solver.Memory S) (this other : Nat) (a b : qp_solver.CostWrapper) (pb : Nat)
    (hb : qp_solver.CostHandle) (s : S) (ha : m.wrappers[this]? = some a)
    (hbw : m.wrappers[other]? = some b) (hpb : b.p_ = some pb)
    (hhb : m.heap.handles[pb]? = some hb) (hs : m.heap.costFunctions[hb.hp_]? = some s) :
    qp_solver.CostWrapper.copyAssign F m this other
      = some (qp_solver.Memory.deleteHandle
          (qp_solver.Memory.mk
            (qp_solver.Heap.mk (m.heap.costFunctions ++ [F.clone s])
              (m.heap.handles ++
                [qp_solver.CostHandle.mk hb.STATE_DIM hb.INPUT_DIM m.heap.costFunctions.length]))
            ((m.wrappers ++ [qp_solver.CostWrapper.mk none]).set this
              (qp_solver.CostWrapper.mk (some m.heap.handles.length)))
            m.deletedHandles m.deletedCostFunctions)
          a.p_) := by
  have hlt : this < m.wrappers.length := by
    rcases Nat.lt_or_ge this m.wrappers.length with hlt | hge
    · exact hlt
    · rw [List.getElem?_eq_none hge] at ha
      cases ha
  rw [copyAssign_eq]
  obtain ⟨bp⟩ := b
  simp only at hpb
  subst hpb
  simp [qp_solver.CostWrapper.copyConstruct, qp_solver.CostWrapper.copy,
    qp_solver.CostHandle.clone, qp_solver.CostHandle.new, qp_solver.CostWrapper.moveAssign,
    hbw, hhb, hs, List.set_append, List.getElem?_append, hlt, ha]

/-! ## Claims -/

/-- C1: round trip of flatten/unFlatten at the sampled times. For a controller `c`
that satisfies the invariant of section 3 and a controller `c'` of the same variant,
restoring `c'` from the time grid of `c` and the flat arrays `c.flatten t_i` gives a
controller whose `computeInput` agrees with that of `c` at every time sample `t_i`
and every state `x`. -/
theorem flatten_unFlatten_round_trip {STATE_DIM INPUT_DIM : Nat}
    (c c' : Controller STATE_DIM INPUT_DIM) (hwf : c.WellFormed) (htype : c'.type = c.type)
    (t : ℚ) (_ht : t ∈ c.timeGrid) (x : List ℚ) :
    (c'.unFlatten c.timeGrid (c.timeGrid.map c.flatten)).computeInput t x
      = c.computeInput t x := by
  rw [unFlatten_flatten_eq c c' hwf htype]

/-- C1 at the controller `exampleController`, restored into a cleared controller and
queried at the sample 1 and the state (1, 1). -/
theorem flatten_unFlatten_round_trip_witness :
    exampleController.WellFormed ∧ exampleController.clear.type = exampleController.type ∧
    (1 : ℚ) ∈ exampleController.timeGrid ∧
    (exampleController.clear.unFlatten exampleController.timeGrid
        (exampleController.timeGrid.map exampleController.flatten)).computeInput 1 [1, 1]
      = exampleController.computeInput 1 [1, 1] :=
  ⟨by decide, rfl, by decide,
    flatten_unFlatten_round_trip exampleController exampleController.clear (by decide) rfl 1
      (by decide) [1, 1]⟩

/-- C8: `setZero()` replaces every gain row and every bias vector by as many zeros as
it had entries, so every entry of the data containers is zero and no container
changes its size; the time array and the variant are unchanged, and `empty()` returns
the same value before and after. -/
theorem setZero_zeros_and_frame {STATE_DIM INPUT_DIM : Nat}
    (c : Controller STATE_DIM INPUT_DIM) :
    c.setZero.gain = c.gain.map (fun K => K.map (fun row => List.replicate row.length 0)) ∧
    c.setZero.bias = c.bias.map (fun b => List.replicate b.length 0) ∧
    (c.setZero.gain.flatten.flatten ++ c.setZero.bias.flatten).all (fun e => decide (e = 0))
      = true ∧
    c.setZero.gain.map (fun K => K.map List.length) = c.gain.map (fun K => K.map List.length) ∧
    c.setZero.bias.map List.length = c.bias.map List.length ∧
    c.setZero.gain.length = c.gain.length ∧
    c.setZero.bias.length = c.bias.length ∧
    c.setZero.timeGrid = c.timeGrid ∧
    c.setZero.type = c.type ∧
    c.setZero.empty = c.empty := by
  have hrep : ∀ l : List ℚ, l.map (fun _ => (0 : ℚ)) = List.replicate l.length 0 := by
    intro l
    induction l with
    | nil => rfl
    | cons a l ih => simp [List.replicate_succ, ih]
  refine ⟨?_, ?_, ?_, ?_, ?_, ?_, ?_, rfl, rfl, ?_⟩
  · simp [Controller.setZero, hrep]
  · simp [Controller.setZero, hrep]
  · simp only [List.all_eq_true, decide_eq_true_eq, List.mem_append, List.mem_flatten,
      Controller.setZero, List.mem_map]
    rintro e (⟨row, ⟨K, ⟨K0, _, rfl⟩, hrow⟩, he⟩ | ⟨b, ⟨b0, _, rfl⟩, he⟩)
    · obtain ⟨row0, _, rfl⟩ := List.mem_map.mp hrow
      obtain ⟨_, _, rfl⟩ := List.mem_map.mp he
      rfl
    · obtain ⟨_, _, rfl⟩ := List.mem_map.mp he
      rfl
  · simp [Controller.setZero, Function.comp_def]
  · simp [Controller.setZero, Function.comp_def]
  · simp [Controller.setZero]
  · simp [Controller.setZero]
  · cases hg : c.gain <;> cases hb : c.bias <;> simp [Controller.setZero, Controller.empty, hg, hb]

/-- C9: in both regression tests the arguments of `run` satisfy the preconditions of
the entry point: `startTime = 0`, `finalTime = 2`, `startTime < finalTime`, and
`partitioningTimes = [0, 0.1897, 2]` is strictly increasing, starts at `startTime`
and ends at `finalTime`. -/
theorem exp0_run_inputs_satisfy_preconditions :
    (exp0_slq_test.startTime = 0 ∧ exp0_slq_test.finalTime = 2 ∧
      exp0_slq_test.startTime < exp0_slq_test.finalTime ∧
      exp0_slq_test.partitioningTimes = [0, 1897 / 10000, 2] ∧
      exp0_slq_test.partitioningTimes.Pairwise (fun a b => a < b) ∧
      exp0_slq_test.partitioningTimes.head? = some exp0_slq_test.startTime ∧
      exp0_slq_test.partitioningTimes.getLast? = some exp0_slq_test.finalTime) ∧
    (exp0_ilqr_test.startTime = 0 ∧ exp0_ilqr_test.finalTime = 2 ∧
      exp0_ilqr_test.startTime < exp0_ilqr_test.finalTime ∧
      exp0_ilqr_test.partitioningTimes = [0, 1897 / 10000, 2] ∧
      exp0_ilqr_test.partitioningTimes.Pairwise (fun a b => a < b) ∧
      exp0_ilqr_test.partitioningTimes.head? = some exp0_ilqr_test.startTime ∧
      exp0_ilqr_test.partitioningTimes.getLast? = some exp0_ilqr_test.finalTime) := by
  refine ⟨⟨rfl, rfl, ?_, ?_, ?_, ?_, ?_⟩, ⟨rfl, rfl, ?_, ?_, ?_, ?_, ?_⟩⟩ <;>
    norm_num [exp0_slq_test.startTime, exp0_slq_test.finalTime,
      exp0_slq_test.partitioningTimes, exp0_slq_test.switchingTimes,
      exp0_ilqr_test.startTime, exp0_ilqr_test.finalTime,
      exp0_ilqr_test.partitioningTimes, exp0_ilqr_test.switchingTimes, push_back]

/-- C10: a `CostWrapper` built from the cost function at address `a` owns a clone of
it at a fresh address, and the copy constructor gives a wrapper with a fresh handle
that owns a fresh clone of the cost function of `w`. `setCurrentStateAndControl` on
the copy changes the cost function of the copy only: the cost function of `w`, the
cost function passed in and every other object allocated before keep their state; the
same holds the other way round for a call on `w`. -/
theorem costWrapper_copy_owns_fresh_clone {S : Type} (F : qp_solver.CostFunctionBase S)
    (STATE_DIM INPUT_DIM : Nat) (h : qp_solver.Heap S) (a : Nat) (s : S)
    (ha : h.costFunctions[a]? = some s) (t : ℚ) (x u : List ℚ) :
    ∃ h1 w h2 w',
      qp_solver.CostWrapper.new F STATE_DIM INPUT_DIM h a = some (h1, w) ∧
      qp_solver.CostWrapper.copy F h1 w = some (h2, w') ∧
      w.costAddress h1 = some h.costFunctions.length ∧
      w.costFunction h1 = some (F.clone s) ∧
      h1.costFunctions.take h.costFunctions.length = h.costFunctions ∧
      w'.p_ ≠ w.p_ ∧
      w'.costAddress h2 = some h1.costFunctions.length ∧
      w.costAddress h2 = some h.costFunctions.length ∧
      h.costFunctions.length < h1.costFunctions.length ∧
      a < h.costFunctions.length ∧
      w'.costFunction h2 = some (F.clone (F.clone s)) ∧
      w.costFunction h2 = some (F.clone s) ∧
      h2.costFunctions.take h1.costFunctions.length = h1.costFunctions ∧
      (∃ h3, w'.setCurrentStateAndControl F h2 t x u = some h3 ∧
        w'.costFunction h3 = some (F.setCurrentStateAndControl (F.clone (F.clone s)) t x u) ∧
        w.costFunction h3 = some (F.clone s) ∧
        h3.costFunctions[a]? = some s ∧
        h3.costFunctions.take h1.costFunctions.length = h1.costFunctions ∧
        h3.handles = h2.handles) ∧
      (∃ h3, w.setCurrentStateAndControl F h2 t x u = some h3 ∧
        w.costFunction h3 = some (F.setCurrentStateAndControl (F.clone s) t x u) ∧
        w'.costFunction h3 = some (F.clone (F.clone s)) ∧
        h3.costFunctions[a]? = some s ∧
        h3.costFunctions.take h.costFunctions.length = h.costFunctions ∧
        h3.handles = h2.handles) := by
  have hlt : a < h.costFunctions.length := by
    rcases Nat.lt_or_ge a h.costFunctions.length with hlt | hge
    · exact hlt
    · rw [List.getElem?_eq_none hge] at ha
      cases ha
  have hne : a ≠ h.costFunctions.length := Nat.ne_of_lt hlt
  refine ⟨qp_solver.Heap.mk (h.costFunctions ++ [F.clone s])
      (h.handles ++ [qp_solver.CostHandle.mk STATE_DIM INPUT_DIM h.costFunctions.length]),
    qp_solver.CostWrapper.mk (some h.handles.length),
    qp_solver.Heap.mk ((h.costFunctions ++ [F.clone s]) ++ [F.clone (F.clone s)])
      ((h.handles ++ [qp_solver.CostHandle.mk STATE_DIM INPUT_DIM h.costFunctions.length])
        ++ [qp_solver.CostHandle.mk STATE_DIM INPUT_DIM (h.costFunctions ++ [F.clone s]).length]),
    qp_solver.CostWrapper.mk (some
      (h.handles ++ [qp_solver.CostHandle.mk STATE_DIM INPUT_DIM h.costFunctions.length]).length),
    ?_, ?_, ?_, ?_, ?_, ?_, ?_, ?_, ?_, hlt, ?_, ?_, ?_,
    ⟨qp_solver.Heap.mk (((h.costFunctions ++ [F.clone s]) ++ [F.clone (F.clone s)]).set
        (h.costFunctions ++ [F.clone s]).length
        (F.setCurrentStateAndControl (F.clone (F.clone s)) t x u)) _,
      ?_, ?_, ?_, ?_, ?_, rfl⟩,
    ⟨qp_solver.Heap.mk (((h.costFunctions ++ [F.clone s]) ++ [F.clone (F.clone s)]).set
        h.costFunctions.length
        (F.setCurrentStateAndControl (F.clone s) t x u)) _,
      ?_, ?_, ?_, ?_, ?_, rfl⟩⟩
  all_goals
    simp [qp_solver.CostWrapper.new, qp_solver.CostWrapper.copy, qp_solver.CostHandle.clone,
      qp_solver.CostHandle.new, qp_solver.CostWrapper.costFunction,
      qp_solver.CostWrapper.costAddress, qp_solver.CostWrapper.handle,
      qp_solver.CostWrapper.setCurrentStateAndControl,
      qp_solver.CostHandle.setCurrentStateAndControl, List.getElem_append_right,
      List.set_append, List.getElem?_append, List.take_append_eq_append_take, hlt, ha]

/-- C10 at `exampleHeap` and the cost function at address 0: the wrapper and its copy
exist, and after `setCurrentStateAndControl(1, (1, 1), (1))` on the copy the cost
function passed in still has the state it had. -/
theorem costWrapper_copy_owns_fresh_clone_witness :
    exampleHeap.costFunctions[0]? = some (0, [0, 2], [0]) ∧
    ∃ h1 w h2 w',
      qp_solver.CostWrapper.new exampleCostFunction 2 1 exampleHeap 0 = some (h1, w) ∧
      qp_solver.CostWrapper.copy exampleCostFunction h1 w = some (h2, w') ∧
      w'.p_ ≠ w.p_ ∧
      ∃ h3, w'.setCurrentStateAndControl exampleCostFunction h2 1 [1, 1] [1] = some h3 ∧
        h3.costFunctions[0]? = some (0, [0, 2], [0]) := by
  refine ⟨rfl, ?_⟩
  obtain ⟨h1, w, h2, w', hnew, hcopy, _, _, _, hp, _, _, _, _, _, _, _, ⟨h3, hset, _, _, horig, _⟩, _⟩ :=
    costWrapper_copy_owns_fresh_clone exampleCostFunction 2 1 exampleHeap 0 (0, [0, 2], [0]) rfl
      1 [1, 1] [1]
  exact ⟨h1, w, h2, w', hnew, hcopy, hp, h3, hset, horig⟩

/-- C11: after `setCurrentStateAndControl(t, x, u)` through a handle, each dynamic-size
accessor of the handle returns the value the matching getter of the wrapped cost
function writes in the state that call left it in: `getCost` the intermediate cost, the
derivative accessors the state and input gradients, the state and input Hessians and
the cross term, and the three terminal accessors the terminal cost, its state gradient
and its state Hessian. With the fixed-size types of the cost function, the gradients
have `STATE_DIM` and `INPUT_DIM` entries, the Hessians are square of these sizes, and
the cross term is `INPUT_DIM x STATE_DIM`. -/
theorem costHandle_accessors_return_getter_values {S : Type}
    (F : qp_solver.CostFunctionBase S) (h : qp_solver.Heap S) (p : Nat)
    (handle : qp_solver.CostHandle) (s : S) (hp : h.handles[p]? = some handle)
    (hs : h.costFunctions[handle.hp_]? = some s) (t : ℚ) (x u : List ℚ)
    (hdim : F.hasDimensions handle.STATE_DIM handle.INPUT_DIM
      (F.setCurrentStateAndControl s t x u)) :
    ∃ h', qp_solver.CostHandle.setCurrentStateAndControl F h p t x u = some h' ∧
      qp_solver.CostHandle.getCost F h' p
        = some (F.getIntermediateCost (F.setCurrentStateAndControl s t x u)) ∧
      qp_solver.CostHandle.getCostDerivativeState F h' p
        = some (F.getIntermediateCostDerivativeState (F.setCurrentStateAndControl s t x u)) ∧
      qp_solver.CostHandle.getCostDerivativeInput F h' p
        = some (F.getIntermediateCostDerivativeInput (F.setCurrentStateAndControl s t x u)) ∧
      qp_solver.CostHandle.getCostSecondDerivativeState F h' p
        = some (F.getIntermediateCostSecondDerivativeState
            (F.setCurrentStateAndControl s t x u)) ∧
      qp_solver.CostHandle.getCostSecondDerivativeInput F h' p
        = some (F.getIntermediateCostSecondDerivativeInput
            (F.setCurrentStateAndControl s t x u)) ∧
      qp_solver.CostHandle.getCostDerivativeInputState F h' p
        = some (F.getIntermediateCostDerivativeInputState
            (F.setCurrentStateAndControl s t x u)) ∧
      qp_solver.CostHandle.getTerminalCost F h' p
        = some (F.getTerminalCost (F.setCurrentStateAndControl s t x u)) ∧
      qp_solver.CostHandle.getTerminalCostDerivativeState F h' p
        = some (F.getTerminalCostDerivativeState (F.setCurrentStateAndControl s t x u)) ∧
      qp_solver.CostHandle.getTerminalCostSecondDerivativeState F h' p
        = some (F.getTerminalCostSecondDerivativeState
            (F.setCurrentStateAndControl s t x u)) ∧
      (qp_solver.CostHandle.getCostDerivativeState F h' p).map List.length
        = some handle.STATE_DIM ∧
      (qp_solver.CostHandle.getCostDerivativeInput F h' p).map List.length
        = some handle.INPUT_DIM ∧
      (qp_solver.CostHandle.getCostSecondDerivativeState F h' p).map
          (fun M => decide (qp_solver.isMatrix handle.STATE_DIM handle.STATE_DIM M))
        = some true ∧
      (qp_solver.CostHandle.getCostSecondDerivativeInput F h' p).map
          (fun M => decide (qp_solver.isMatrix handle.INPUT_DIM handle.INPUT_DIM M))
        = some true ∧
      (qp_solver.CostHandle.getCostDerivativeInputState F h' p).map
          (fun M => decide (qp_solver.isMatrix handle.INPUT_DIM handle.STATE_DIM M))
        = some true ∧
      (qp_solver.CostHandle.getTerminalCostDerivativeState F h' p).map List.length
        = some handle.STATE_DIM ∧
      (qp_solver.CostHandle.getTerminalCostSecondDerivativeState F h' p).map
          (fun M => decide (qp_solver.isMatrix handle.STATE_DIM handle.STATE_DIM M))
        = some true := by
  obtain ⟨h', hset, _, hderef⟩ := deref_setCurrentStateAndControl F h p handle s hp hs t x u
  obtain ⟨d1, d2, d3, d4, d5, d6, d7⟩ := hdim
  refine ⟨h', hset, ?_, ?_, ?_, ?_, ?_, ?_, ?_, ?_, ?_, ?_, ?_, ?_, ?_, ?_, ?_, ?_⟩
  all_goals
    simp [qp_solver.CostHandle.getCost, qp_solver.CostHandle.getCostDerivativeState,
      qp_solver.CostHandle.getCostDerivativeInput,
      qp_solver.CostHandle.getCostSecondDerivativeState,
      qp_solver.CostHandle.getCostSecondDerivativeInput,
      qp_solver.CostHandle.getCostDerivativeInputState, qp_solver.CostHandle.getTerminalCost,
      qp_solver.CostHandle.getTerminalCostDerivativeState,
      qp_solver.CostHandle.getTerminalCostSecondDerivativeState, hderef, d1, d2, d3, d4, d5,
      d6, d7]

/-- C11 at the handle at address 0 of `exampleMemory` and the call
`setCurrentStateAndControl(1, (1, 1), (1))`: the cost function has the dimensions of
the handle, and `getCost` and `getCostDerivativeInputState` return what the getters of
the cost function write at that time, state and input. -/
theorem costHandle_accessors_return_getter_values_witness :
    exampleMemory.heap.handles[0]? = some (qp_solver.CostHandle.mk 2 1 0) ∧
    exampleMemory.heap.costFunctions[0]? = some (0, [0, 2], [0]) ∧
    exampleCostFunction.hasDimensions 2 1
      (exampleCostFunction.setCurrentStateAndControl (0, [0, 2], [0]) 1 [1, 1] [1]) ∧
    ∃ h', qp_solver.CostHandle.setCurrentStateAndControl exampleCostFunction
        exampleMemory.heap 0 1 [1, 1] [1] = some h' ∧
      qp_solver.CostHandle.getCost exampleCostFunction h' 0
        = some (exampleCostFunction.getIntermediateCost (1, [1, 1], [1])) ∧
      qp_solver.CostHandle.getCostDerivativeInputState exampleCostFunction h' 0
        = some (exampleCostFunction.getIntermediateCostDerivativeInputState
            (1, [1, 1], [1])) := by
  refine ⟨rfl, rfl, by decide, ?_⟩
  obtain ⟨h', hset, hcost, _, _, _, _, hcross, _⟩ :=
    costHandle_accessors_return_getter_values exampleCostFunction exampleMemory.heap 0
      (qp_solver.CostHandle.mk 2 1 0) (0, [0, 2], [0]) rfl rfl 1 [1, 1] [1] (by decide)
  exact ⟨h', hset, hcost, hcross⟩

/-- C12: the two-argument `setCurrentStateAndControl(t, x)` of a handle has the result
of the three-argument call with `u` the zero vector of length `INPUT_DIM`: it leaves
the wrapped cost function in the state `setCurrentStateAndControl(t, x, 0)` gives, and
the terminal accessors read after it return the terminal cost, gradient and Hessian
of the cost function in that state. -/
theorem setCurrentStateAndControl_two_arguments_zero_input {S : Type}
    (F : qp_solver.CostFunctionBase S) (h : qp_solver.Heap S) (p : Nat)
    (handle : qp_solver.CostHandle) (s : S) (hp : h.handles[p]? = some handle)
    (hs : h.costFunctions[handle.hp_]? = some s) (t : ℚ) (x : List ℚ) :
    qp_solver.CostHandle.setCurrentStateAndControl₂ F h p t x
      = qp_solver.CostHandle.setCurrentStateAndControl F h p t x
          (List.replicate handle.INPUT_DIM 0) ∧
    (List.replicate handle.INPUT_DIM (0 : ℚ)).length = handle.INPUT_DIM ∧
    (List.replicate handle.INPUT_DIM (0 : ℚ)).all (fun e => decide (e = 0)) = true ∧
    ∃ h', qp_solver.CostHandle.setCurrentStateAndControl₂ F h p t x = some h' ∧
      qp_solver.CostHandle.deref h' p
        = some (F.setCurrentStateAndControl s t x (List.replicate handle.INPUT_DIM 0)) ∧
      qp_solver.CostHandle.getTerminalCost F h' p
        = some (F.getTerminalCost
            (F.setCurrentStateAndControl s t x (List.replicate handle.INPUT_DIM 0))) ∧
      qp_solver.CostHandle.getTerminalCostDerivativeState F h' p
        = some (F.getTerminalCostDerivativeState
            (F.setCurrentStateAndControl s t x (List.replicate handle.INPUT_DIM 0))) ∧
      qp_solver.CostHandle.getTerminalCostSecondDerivativeState F h' p
        = some (F.getTerminalCostSecondDerivativeState
            (F.setCurrentStateAndControl s t x (List.replicate handle.INPUT_DIM 0))) := by
  have heq := setCurrentStateAndControl₂_eq F h p handle hp t x
  obtain ⟨h', hset, _, hderef⟩ := deref_setCurrentStateAndControl F h p handle s hp hs t x
    (List.replicate handle.INPUT_DIM 0)
  refine ⟨heq, List.length_replicate _ _, ?_, h', heq.trans hset, hderef, ?_, ?_, ?_⟩
  · simp
  · simp [qp_solver.CostHandle.getTerminalCost, hderef]
  · simp [qp_solver.CostHandle.getTerminalCostDerivativeState, hderef]
  · simp [qp_solver.CostHandle.getTerminalCostSecondDerivativeState, hderef]

/-- C12 at the handle at address 0 of `exampleMemory` and the call
`setCurrentStateAndControl(5, (3, 4))`: the cost function is left at input (0). -/
theorem setCurrentStateAndControl_two_arguments_zero_input_witness :
    exampleMemory.heap.handles[0]? = some (qp_solver.CostHandle.mk 2 1 0) ∧
    exampleMemory.heap.costFunctions[0]? = some (0, [0, 2], [0]) ∧
    ∃ h', qp_solver.CostHandle.setCurrentStateAndControl₂ exampleCostFunction
        exampleMemory.heap 0 5 [3, 4] = some h' ∧
      qp_solver.CostHandle.deref h' 0 = some (5, [3, 4], [0]) := by
  refine ⟨rfl, rfl, ?_⟩
  obtain ⟨_, _, _, h', hset, hderef, _⟩ :=
    setCurrentStateAndControl_two_arguments_zero_input exampleCostFunction exampleMemory.heap
      0 (qp_solver.CostHandle.mk 2 1 0) (0, [0, 2], [0]) rfl rfl 5 [3, 4]
  exact ⟨h', hset, hderef⟩

/-- C13, as stated, fails when `a` and `b` are the same object: after the self-assignment
of the wrapper at address 0 of `exampleMemory`, the handle it held before (address 0)
and the cost function of that handle are deleted, and the wrapper holds the handle at
address 2 instead. -/
theorem self_assignment_replaces_handle :
    exampleMemory.wrappers[0]? = some (qp_solver.CostWrapper.mk (some 0)) ∧
    ∃ m', qp_solver.CostWrapper.copyAssign exampleCostFunction exampleMemory 0 0 = some m' ∧
      m'.wrappers[0]? = some (qp_solver.CostWrapper.mk (some 2)) ∧
      0 ∈ m'.deletedHandles ∧
      0 ∈ m'.deletedCostFunctions := by
  refine ⟨rfl, _, copyAssign_memory exampleCostFunction exampleMemory 0 0
    (qp_solver.CostWrapper.mk (some 0)) (qp_solver.CostWrapper.mk (some 0)) 0
    (qp_solver.CostHandle.mk 2 1 0) (0, [0, 2], [0]) rfl rfl rfl rfl rfl, ?_, ?_, ?_⟩
  · rfl
  · decide
  · decide

/-- C13, amended: for wrapper objects `a` (at address `this`) and `b` (at address
`other`, holding a handle), the same object or not, the copy assignment `a = b` is the
copy construction of one temporary followed by the move assignment from it, and it has
a result: one handle and one cost function are allocated, the clone of the handle of
`b` and of its cost function; `a` holds that clone; the temporary is left with a null
pointer; the handle `a` held before is deleted; the handle object `b` held before and
its cost function keep their state. When `a` and `b` are different objects `b` is
unchanged, and its handle is not deleted unless `a` held it; when they are the same
object the handle held before is deleted and replaced by the clone. -/
theorem copyAssign_terminates_and_clones {S : Type} (F : qp_solver.CostFunctionBase S)
    (m : qp_solver.Memory S) (this other : Nat) (a b : qp_solver.CostWrapper) (pb : Nat)
    (hb : qp_solver.CostHandle) (s : S) (ha : m.wrappers[this]? = some a)
    (hbw : m.wrappers[other]? = some b) (hpb : b.p_ = some pb)
    (hhb : m.heap.handles[pb]? = some hb) (hs : m.heap.costFunctions[hb.hp_]? = some s) :
    (qp_solver.CostWrapper.copyAssign F m this other
      = match qp_solver.CostWrapper.copyConstruct F m other with
        | none => none
        | some (m1, temp) => qp_solver.CostWrapper.moveAssign m1 this temp) ∧
    ∃ m', qp_solver.CostWrapper.copyAssign F m this other = some m' ∧
      m'.heap.handles = m.heap.handles ++
        [qp_solver.CostHandle.mk hb.STATE_DIM hb.INPUT_DIM m.heap.costFunctions.length] ∧
      m'.heap.costFunctions = m.heap.costFunctions ++ [F.clone s] ∧
      m'.wrappers[this]? = some (qp_solver.CostWrapper.mk (some m.heap.handles.length)) ∧
      m'.wrappers.length = m.wrappers.length + 1 ∧
      m'.wrappers[m.wrappers.length]? = some (qp_solver.CostWrapper.mk none) ∧
      m'.deletedHandles = m.deletedHandles ++ a.p_.toList ∧
      m'.heap.handles[pb]? = some hb ∧
      m'.heap.costFunctions[hb.hp_]? = some s ∧
      (this ≠ other → m'.wrappers[other]? = some b) ∧
      (this ≠ other → a.p_ ≠ some pb → pb ∉ m.deletedHandles → pb ∉ m'.deletedHandles) ∧
      (this = other →
        m'.wrappers[other]? = some (qp_solver.CostWrapper.mk (some m.heap.handles.length)) ∧
        pb < m.heap.handles.length ∧
        pb ∈ m'.deletedHandles ∧
        hb.hp_ ∈ m'.deletedCostFunctions) := by
  have hlt : this < m.wrappers.length := by
    rcases Nat.lt_or_ge this m.wrappers.length with hlt | hge
    · exact hlt
    · rw [List.getElem?_eq_none hge] at ha
      cases ha
  have hlto : other < m.wrappers.length := by
    rcases Nat.lt_or_ge other m.wrappers.length with hlt | hge
    · exact hlt
    · rw [List.getElem?_eq_none hge] at hbw
      cases hbw
  have hltp : pb < m.heap.handles.length := by
    rcases Nat.lt_or_ge pb m.heap.handles.length with hlt | hge
    · exact hlt
    · rw [List.getElem?_eq_none hge] at hhb
      cases hhb
  have hltc : hb.hp_ < m.heap.costFunctions.length := by
    rcases Nat.lt_or_ge hb.hp_ m.heap.costFunctions.length with hlt | hge
    · exact hlt
    · rw [List.getElem?_eq_none hge] at hs
      cases hs
  refine ⟨copyAssign_eq F m this other, _,
    copyAssign_memory F m this other a b pb hb s ha hbw hpb hhb hs,
    ?_, ?_, ?_, ?_, ?_, ?_, ?_, ?_, ?_, ?_, ?_⟩
  · cases a.p_ <;> rfl
  · cases a.p_ <;> rfl
  · cases a.p_ <;>
      simp [qp_solver.Memory.deleteHandle, List.getElem?_set, List.getElem?_append,
        List.set_append, hlt]
  · cases a.p_ <;> simp [qp_solver.Memory.deleteHandle]
  · cases a.p_ <;>
      simp [qp_solver.Memory.deleteHandle, List.getElem?_set, List.getElem?_append,
        List.set_append, hlt]
  · cases a.p_ <;> simp [qp_solver.Memory.deleteHandle]
  · cases a.p_ <;> simp [qp_solver.Memory.deleteHandle, List.getElem?_append, hltp, hhb]
  · cases a.p_ <;> simp [qp_solver.Memory.deleteHandle, List.getElem?_append, hltc, hs]
  · intro hne
    have hget : m.wrappers[other] = b := by
      rw [List.getElem?_eq_getElem hlto] at hbw
      exact Option.some.inj hbw
    cases a.p_ <;>
      simp [qp_solver.Memory.deleteHandle, List.getElem?_set, List.getElem?_append,
        List.set_append, hne, hlt, hlto, hget]
  · intro _ hap hnd
    cases hq : a.p_ with
    | none => simpa [qp_solver.Memory.deleteHandle] using hnd
    | some q =>
      rw [hq] at hap
      have hqp : pb ≠ q := fun h => hap (by rw [h])
      simp [qp_solver.Memory.deleteHandle, hnd, hqp]
  · intro heq
    subst heq
    have hab : a = b := by
      rw [ha] at hbw
      exact Option.some.inj hbw
    subst hab
    rw [hpb]
    simp [qp_solver.Memory.deleteHandle, List.getElem?_set, List.getElem?_append,
      List.set_append, hlt, hltp, hhb]

/-- C13, amended, at `exampleMemory`: the wrapper at address 0 is assigned the wrapper at
address 1; it then holds the handle at address 2, the clone, and the wrapper at
address 1 still holds the handle at address 1. -/
theorem copyAssign_terminates_and_clones_witness :
    exampleMemory.wrappers[0]? = some (qp_solver.CostWrapper.mk (some 0)) ∧
    exampleMemory.wrappers[1]? = some (qp_solver.CostWrapper.mk (some 1)) ∧
    exampleMemory.heap.handles[1]? = some (qp_solver.CostHandle.mk 2 1 1) ∧
    exampleMemory.heap.costFunctions[1]? = some (1, [1, 1], [1]) ∧
    ∃ m', qp_solver.CostWrapper.copyAssign exampleCostFunction exampleMemory 0 1 = some m' ∧
      m'.wrappers[0]? = some (qp_solver.CostWrapper.mk (some 2)) ∧
      m'.wrappers[1]? = some (qp_solver.CostWrapper.mk (some 1)) ∧
      m'.heap.costFunctions = [(0, [0, 2], [0]), (1, [1, 1], [1]), (1, [1, 1], [1])] := by
  refine ⟨rfl, rfl, rfl, rfl, ?_⟩
  obtain ⟨_, m', hm, _, hcf, hthis, _, _, _, _, _, hother, _⟩ :=
    copyAssign_terminates_and_clones exampleCostFunction exampleMemory 0 1
      (qp_solver.CostWrapper.mk (some 0)) (qp_solver.CostWrapper.mk (some 1)) 1
      (qp_solver.CostHandle.mk 2 1 1) (1, [1, 1], [1]) rfl rfl rfl rfl rfl
  exact ⟨m', hm, hthis, hother (by decide), hcf⟩

end ocs2
